import Mathlib

/-!
Shallow embedding of lib/utils/workpool/workpool.go.

The Go file implements a pool of per-key work groups.  Each group owns a
pair of uint64 counters (Counts), a capacity-1 notification channel and a
controller goroutine (group.run) that offers leases on the shared grant
channel while Active < Target.  The embedding below represents the whole
pool as one explicit state, and every atomic action of the program
(a pool method invoked by a client goroutine, or one branch of the
controller loop of one group) as one labelled step of an executable
transition function.  The three-way select at the bottom of group.run
is nondeterministic in Go (a uniformly random choice among the ready
cases), so each of its branches is a separate label; any interleaving of
labels corresponds to a schedule of the Go program.
-/

namespace Workpool

/-- Counts holds the target and active counts for a key/group
(workpool.go lines 149-157).  The uint64 fields are embedded as Nat;
the Active decrement and increment, the two places where uint64
wrap-around is reachable (a Release racing the incrActive of the group
that granted the lease can drive Active from 0 to 2 ^ 64 - 1 and back),
are modelled exactly by decr64 and incr64 below. -/
structure Counts where
  Target : Nat
  Active : Nat
deriving DecidableEq

/-- The uint64 modulus. -/
def W64 : Nat := 2 ^ 64

/-- uint64 decrement with wrap-around at zero: the Go statement
g.counts.Active-- on a uint64 field (workpool.go line 204). -/
def decr64 (n : Nat) : Nat := if n = 0 then W64 - 1 else n - 1

/-- uint64 increment with wrap-around: the Go statement
g.counts.Active++ on a uint64 field (workpool.go line 194). -/
def incr64 (n : Nat) : Nat := (n + 1) % W64

/-- Program counter of the controller goroutine of one group (group.run,
workpool.go lines 218-249): needEval is the top of the for loop (about to
call loadCounts), atSelect is the blocking three-way select, postGrant is
the body of the first select branch after the send on the grant channel
has completed (line 241) but before the goroutine has run g.incrActive()
(line 242) - the receiver already owns the lease and can Release it in
this window - and exited means run has returned. -/
inductive LoopPC
  | needEval
  | atSelect
  | postGrant
  | exited
deriving DecidableEq

/-- One group (workpool.go lines 159-168) together with the local state
of its controller goroutine.  gid identifies the group object (the Go
heap pointer): a group deleted from the registry still exists, and leases
holding a pointer to it still reach its counters.
Fields beyond the Go struct fields:
 cancelled - the context of the group is done (its own cancel or the
   cancel of the pool root, both close ctx.Done());
 notified  - the capacity-1 channel notifyC holds a pending token;
 pc        - position of the goroutine running group.run;
 grantLive - the loop-local variable grant currently aliases the non-nil
   grant channel (line 228) rather than nil (line 238);
 candidate - the id inside the loop-local variable nextLease, if it is
   currently non-nil. -/
structure GroupSt (K : Type) where
  gid : Nat
  key : K
  counts : Counts
  cancelled : Bool
  notified : Bool
  pc : LoopPC
  grantLive : Bool
  candidate : Option Nat
deriving DecidableEq

/-- One lease handed out on the grant channel (type lease, workpool.go
lines 251-255): its unique id, the key and gid of the owning group, and
the state of its sync.Once release guard (released = the Once has
fired). -/
structure LeaseRec (K : Type) where
  lid : Nat
  key : K
  gid : Nat
  released : Bool
deriving DecidableEq

/-- The whole pool (type pool, workpool.go lines 59-66) plus the heap it
owns: groups is every group object ever created (deletion from the
registry does not destroy the object), registry is the Go map
p.groups : key -> *group as an association list of keys and gids, leases
is every lease ever granted on the grant channel, and stopped records
that p.cancel has been called. -/
structure PoolSt (K : Type) where
  leaseIDs : Nat
  nextGid : Nat
  groups : List (GroupSt K)
  registry : List (K × Nat)
  leases : List (LeaseRec K)
  stopped : Bool
deriving DecidableEq

variable {K : Type} [DecidableEq K]

/-- Lookup of a key in the registry (the Go map read p.groups[key]). -/
def lookupKey : List (K × Nat) → K → Option Nat
  | [], _ => none
  | p :: rest, k => if p.1 = k then some p.2 else lookupKey rest k

/-- Removal of a key from the registry (the Go delete(p.groups, key)). -/
def removeKey : List (K × Nat) → K → List (K × Nat)
  | [], _ => []
  | p :: rest, k => if p.1 = k then removeKey rest k else p :: removeKey rest k

/-- Dereference of a group pointer: the group object with the given gid. -/
def findGroup (s : PoolSt K) (gid : Nat) : Option (GroupSt K) :=
  s.groups.find? (fun g => g.gid == gid)

/-- In-place mutation of the group object with the given gid. -/
def updateGroup (s : PoolSt K) (gid : Nat) (f : GroupSt K → GroupSt K) :
    PoolSt K :=
  { s with groups := s.groups.map (fun g => if g.gid == gid then f g else g) }

/-- group.notify (workpool.go lines 175-180): a non-blocking send on the
capacity-1 channel notifyC; when a token is already pending the default
branch is taken and the send is dropped. -/
def GroupSt.notify (g : GroupSt K) : GroupSt K :=
  if g.notified then g else { g with notified := true }

/-- group.loadCounts (workpool.go lines 183-187). -/
def GroupSt.loadCounts (g : GroupSt K) : Counts := g.counts

/-- group.incrActive (workpool.go lines 191-197): Active++ (a uint64
increment) then notify, all under the cmu lock of the group. -/
def GroupSt.incrActive (g : GroupSt K) : GroupSt K :=
  GroupSt.notify { g with counts := { g.counts with Active := incr64 g.counts.Active } }

/-- group.decrActive (workpool.go lines 201-207): Active-- then notify. -/
def GroupSt.decrActive (g : GroupSt K) : GroupSt K :=
  GroupSt.notify { g with counts := { g.counts with Active := decr64 g.counts.Active } }

/-- group.SetTarget (workpool.go lines 211-216). -/
def GroupSt.SetTarget (g : GroupSt K) (target : Nat) : GroupSt K :=
  GroupSt.notify { g with counts := { g.counts with Target := target } }

/-- NewPool (workpool.go lines 68-77): id counter at 0, empty map, fresh
root context. -/
def initPool : PoolSt K :=
  { leaseIDs := 0, nextGid := 0, groups := [], registry := [], leases := [],
    stopped := false }

/-- pool.Get (workpool.go lines 87-94): under the pool lock, loadCounts
of the group registered for the key, or the zero Counts value when the
key is absent.  A registry entry always names an existing group object
(lemma regWf below), so the inner fallback branch is dead code of the
model. -/
def PoolSt.Get (s : PoolSt K) (k : K) : Counts :=
  match lookupKey s.registry k with
  | some gid =>
    match findGroup s gid with
    | some g => g.loadCounts
    | none => { Target := 0, Active := 0 }
  | none => { Target := 0, Active := 0 }

/-- pool.start (workpool.go lines 115-132): a new group with Active 0 and
the given Target, a fresh child context, an empty notify channel, and a
goroutine spawned at the top of group.run.  The child context of an
already cancelled root is born cancelled. -/
def PoolSt.start (s : PoolSt K) (k : K) (target : Nat) : PoolSt K :=
  { s with
    groups := s.groups ++
      [{ gid := s.nextGid, key := k,
         counts := { Target := target, Active := 0 },
         cancelled := s.stopped, notified := false,
         pc := LoopPC.needEval, grantLive := false, candidate := none }],
    registry := (k, s.nextGid) :: s.registry,
    nextGid := s.nextGid + 1 }

/-- pool.del (workpool.go lines 134-142): cancel the group registered for
the key and remove it from the registry; no-op when the key is absent. -/
def PoolSt.del (s : PoolSt K) (k : K) : PoolSt K :=
  match lookupKey s.registry k with
  | none => s
  | some gid =>
    { updateGroup s gid (fun g => { g with cancelled := true }) with
      registry := removeKey s.registry k }

/-- pool.Set (workpool.go lines 98-111). -/
def PoolSt.Set (s : PoolSt K) (k : K) (target : Nat) : PoolSt K :=
  if target < 1 then s.del k
  else
    match lookupKey s.registry k with
    | none => s.start k target
    | some gid => updateGroup s gid (fun g => g.SetTarget target)

/-- pool.Stop (workpool.go lines 145-147): p.cancel cancels the root
context, which closes ctx.Done() of every group context derived from
it. -/
def PoolSt.Stop (s : PoolSt K) : PoolSt K :=
  { s with stopped := true,
           groups := s.groups.map (fun g => { g with cancelled := true }) }

/-- Dereference of a lease pointer by id (the first grant of that id). -/
def findLease (s : PoolSt K) (lid : Nat) : Option (LeaseRec K) :=
  s.leases.find? (fun l => l.lid == lid)

/-- Firing the sync.Once of the lease with the given id. -/
def markReleased : List (LeaseRec K) → Nat → List (LeaseRec K)
  | [], _ => []
  | l :: rest, lid =>
    if l.lid = lid then { l with released := true } :: rest
    else l :: markReleased rest lid

/-- One iteration head of group.run (workpool.go lines 222-239): load the
counts; when Active < Target enter the granting state (grant aliases the
grant channel, and nextLease is allocated with the next id from the
shared counter if it is nil, otherwise the existing candidate is kept),
otherwise set grant to nil, keeping any candidate; then block at the
select. -/
def reevalStep (s : PoolSt K) (gid : Nat) : Option (PoolSt K) :=
  match findGroup s gid with
  | none => none
  | some g =>
    if g.pc = LoopPC.needEval then
      if g.counts.Active < g.counts.Target then
        match g.candidate with
        | some _ =>
          some (updateGroup s gid (fun x =>
            { x with grantLive := true, pc := LoopPC.atSelect }))
        | none =>
          some { updateGroup s gid (fun x =>
                   { x with grantLive := true,
                            candidate := some (s.leaseIDs + 1),
                            pc := LoopPC.atSelect })
                 with leaseIDs := s.leaseIDs + 1 }
      else
        some (updateGroup s gid (fun x =>
          { x with grantLive := false, pc := LoopPC.atSelect }))
    else none

/-- The rendezvous of the first select branch of group.run
(workpool.go line 241): a caller receives the candidate lease from the
grant channel and owns it from this moment on; the goroutine of the
group is then inside the case body, before its incrActive call (state
postGrant).  The branch is ready whenever grant is non-nil and a
receiver is at the channel; it stays ready even if the context of the
group is already done, because the Go select chooses among ready cases
uniformly at random.  The case body also sets the loop-local nextLease
to nil (line 243); since nextLease is local to the goroutine and the
loop cannot reach its head again before the case body has finished, no
other action can observe it between the send and that assignment, so
the model clears the candidate here. -/
def grantStep (s : PoolSt K) (gid : Nat) : Option (PoolSt K) :=
  match findGroup s gid with
  | none => none
  | some g =>
    if g.pc = LoopPC.atSelect ∧ g.grantLive = true then
      match g.candidate with
      | none => none
      | some lid =>
        some { updateGroup s gid (fun x =>
                 { x with candidate := none, pc := LoopPC.postGrant })
               with leases := s.leases ++
                 [{ lid := lid, key := g.key, gid := g.gid, released := false }] }
    else none

/-- The rest of the first select branch of group.run (workpool.go line
242): after the handoff the goroutine runs g.incrActive() - the uint64
Active++ and a notify, under the cmu lock - and the loop returns to its
head.  A Release of the just-granted lease can run before this step and
find Active still unincremented. -/
def incrStep (s : PoolSt K) (gid : Nat) : Option (PoolSt K) :=
  match findGroup s gid with
  | none => none
  | some g =>
    if g.pc = LoopPC.postGrant then
      some (updateGroup s gid (fun x =>
        GroupSt.incrActive { x with pc := LoopPC.needEval }))
    else none

/-- The second select branch of group.run (workpool.go line 244): the
pending token of notifyC is consumed and the loop re-evaluates. -/
def notifyStep (s : PoolSt K) (gid : Nat) : Option (PoolSt K) :=
  match findGroup s gid with
  | none => none
  | some g =>
    if g.pc = LoopPC.atSelect ∧ g.notified = true then
      some (updateGroup s gid (fun x =>
        { x with notified := false, pc := LoopPC.needEval }))
    else none

/-- The third select branch of group.run (workpool.go lines 245-246):
ctx.Done() is closed and the goroutine returns. -/
def doneStep (s : PoolSt K) (gid : Nat) : Option (PoolSt K) :=
  match findGroup s gid with
  | none => none
  | some g =>
    if g.pc = LoopPC.atSelect ∧ g.cancelled = true then
      some (updateGroup s gid (fun x => { x with pc := LoopPC.exited }))
    else none

/-- lease.Release (workpool.go lines 265-269): the sync.Once runs
decrActive of the owning group on its first call; later calls return
without any effect.  Release of an id that was never granted is not an
action of the program (there is no such lease object). -/
def releaseStep (s : PoolSt K) (lid : Nat) : Option (PoolSt K) :=
  match findLease s lid with
  | none => none
  | some l =>
    if l.released then some s
    else
      some { updateGroup s l.gid GroupSt.decrActive with
             leases := markReleased s.leases lid }

/-- One atomic action of the program: a pool method run by some client
goroutine, or one select branch taken by the controller goroutine of the
group with the given gid.  Event.getE is a pool.Get call (it only reads,
so its state effect is the identity); Event.grantRecv is a client
receiving from the Acquire channel, paired with the offering group;
Event.incr is the incrActive the group runs right after that handoff. -/
inductive Event (K : Type)
  | set (k : K) (target : Nat)
  | getE (k : K)
  | stop
  | reeval (gid : Nat)
  | grantRecv (gid : Nat)
  | incr (gid : Nat)
  | notifyRecv (gid : Nat)
  | ctxDone (gid : Nat)
  | release (lid : Nat)

/-- The labelled transition function: none means the action is not
enabled in this state (its goroutine would block or does not exist). -/
def stepE (s : PoolSt K) : Event K → Option (PoolSt K)
  | Event.set k target => some (s.Set k target)
  | Event.getE _ => some s
  | Event.stop => some s.Stop
  | Event.reeval gid => reevalStep s gid
  | Event.grantRecv gid => grantStep s gid
  | Event.incr gid => incrStep s gid
  | Event.notifyRecv gid => notifyStep s gid
  | Event.ctxDone gid => doneStep s gid
  | Event.release lid => releaseStep s lid

/-- Total version of the transition function: a disabled action leaves
the state unchanged, so every event list is a schedule. -/
def stepD (s : PoolSt K) (e : Event K) : PoolSt K := (stepE s e).getD s

/-- Run a schedule from a state. -/
def runFrom (s : PoolSt K) (evs : List (Event K)) : PoolSt K :=
  evs.foldl stepD s

/-- Run a schedule from the fresh pool: the reachable states of the
program are exactly the values of runPool. -/
def runPool (evs : List (Event K)) : PoolSt K := runFrom initPool evs

/-- Number of granted and not yet released leases owned by a group. -/
def unreleasedCount (s : PoolSt K) (gid : Nat) : Nat :=
  s.leases.countP (fun l => l.gid == gid && !l.released)

/-- The value of the last Set for a key in a list of Set calls
(spec-side observer used to state claim C1). -/
def lastSet (l : List (K × Nat)) (k : K) : Option Nat :=
  ((l.filter (fun p => p.1 == k)).map (fun p => p.2)).getLast?

/-- Run a list of Set calls on a fresh pool. -/
def applySets (l : List (K × Nat)) : PoolSt K :=
  l.foldl (fun s p => s.Set p.1 p.2) initPool

/-- nopLease (workpool.go lines 271-273). -/
structure NopLease (K : Type) where
  key : K
deriving DecidableEq

/-- NOPLease (workpool.go lines 278-282): a dangling lease for testing
workers, detached from any pool. -/
def NOPLease (k : K) : NopLease K := ⟨k⟩

/-- nopLease.ID (workpool.go lines 284-286). -/
def NopLease.ID (_ : NopLease K) : Nat := 0

/-- nopLease.Key (workpool.go lines 288-290). -/
def NopLease.Key (l : NopLease K) : K := l.key

/-- nopLease.Release (workpool.go line 292): the body is empty, so the
call leaves any pool state exactly as it was. -/
def NopLease.Release (_ : NopLease K) (s : PoolSt K) : PoolSt K := s

/-- Number of Active increments the controller goroutine of a group
still owes: 1 exactly while it is between the grant-channel handoff and
its incrActive call. -/
def pendInc (g : GroupSt K) : Nat :=
  if g.pc = LoopPC.postGrant then 1 else 0

/-- Well-formedness of a pool state.  Every conjunct is an invariant of
the transition function, established for all reachable states below.
The Active counter of a group is a uint64 value that, together with the
pending increment of its goroutine, is congruent mod 2 ^ 64 to the
number of granted and unreleased leases of the group; the congruence
rather than an equality is forced by the uint64 wrap-around that a
Release racing the incrActive of its group can cause. -/
structure WF (s : PoolSt K) : Prop where
  gidsNodup : (s.groups.map (fun g => g.gid)).Nodup
  gidsLt : ∀ g ∈ s.groups, g.gid < s.nextGid
  regWf : ∀ p ∈ s.registry, ∃ g ∈ s.groups, g.gid = p.2
  regGidsNodup : (s.registry.map (fun p => p.2)).Nodup
  leaseIdBounds : ∀ l ∈ s.leases, 1 ≤ l.lid ∧ l.lid ≤ s.leaseIDs
  candBounds : ∀ g ∈ s.groups, ∀ c, g.candidate = some c →
    1 ≤ c ∧ c ≤ s.leaseIDs
  lidsNodup : (s.leases.map (fun l => l.lid)).Nodup
  candsFresh : ∀ g ∈ s.groups, ∀ c, g.candidate = some c →
    ∀ l ∈ s.leases, l.lid ≠ c
  candsDistinct : ∀ g ∈ s.groups, ∀ h ∈ s.groups, ∀ c d,
    g.candidate = some c → h.candidate = some d → g.gid ≠ h.gid → c ≠ d
  activeEq : ∀ g ∈ s.groups, g.counts.Active < W64 ∧
    (g.counts.Active + pendInc g) % W64 = unreleasedCount s g.gid % W64
  leaseGidWf : ∀ l ∈ s.leases, ∃ g ∈ s.groups, g.gid = l.gid
  candGt : ∀ g ∈ s.groups, ∀ c, g.candidate = some c →
    ∀ l ∈ s.leases, l.gid = g.gid → l.lid < c
  perGroupSorted : ∀ gid : Nat,
    ((s.leases.filter (fun l => l.gid == gid)).map (fun l => l.lid)).Pairwise (· < ·)

/-! Field computation lemmas for the group methods. -/

@[simp]
lemma notify_gid (g : GroupSt K) : g.notify.gid = g.gid := by
  by_cases h : g.notified <;> simp [GroupSt.notify, h]

@[simp]
lemma notify_key (g : GroupSt K) : g.notify.key = g.key := by
  by_cases h : g.notified <;> simp [GroupSt.notify, h]

@[simp]
lemma notify_counts (g : GroupSt K) : g.notify.counts = g.counts := by
  by_cases h : g.notified <;> simp [GroupSt.notify, h]

@[simp]
lemma notify_pc (g : GroupSt K) : g.notify.pc = g.pc := by
  by_cases h : g.notified <;> simp [GroupSt.notify, h]

@[simp]
lemma notify_grantLive (g : GroupSt K) : g.notify.grantLive = g.grantLive := by
  by_cases h : g.notified <;> simp [GroupSt.notify, h]

@[simp]
lemma notify_candidate (g : GroupSt K) : g.notify.candidate = g.candidate := by
  by_cases h : g.notified <;> simp [GroupSt.notify, h]

@[simp]
lemma notify_cancelled (g : GroupSt K) : g.notify.cancelled = g.cancelled := by
  by_cases h : g.notified <;> simp [GroupSt.notify, h]

@[simp]
lemma notify_notified (g : GroupSt K) : g.notify.notified = true := by
  by_cases h : g.notified <;> simp [GroupSt.notify, h]

@[simp]
lemma incrActive_gid (g : GroupSt K) : g.incrActive.gid = g.gid := by
  simp [GroupSt.incrActive]

@[simp]
lemma incrActive_key (g : GroupSt K) : g.incrActive.key = g.key := by
  simp [GroupSt.incrActive]

@[simp]
lemma incrActive_counts (g : GroupSt K) :
    g.incrActive.counts = { g.counts with Active := incr64 g.counts.Active } := by
  simp [GroupSt.incrActive]

@[simp]
lemma incrActive_candidate (g : GroupSt K) : g.incrActive.candidate = g.candidate := by
  simp [GroupSt.incrActive]

@[simp]
lemma incrActive_pc (g : GroupSt K) : g.incrActive.pc = g.pc := by
  simp [GroupSt.incrActive]

@[simp]
lemma decrActive_gid (g : GroupSt K) : g.decrActive.gid = g.gid := by
  simp [GroupSt.decrActive]

@[simp]
lemma decrActive_key (g : GroupSt K) : g.decrActive.key = g.key := by
  simp [GroupSt.decrActive]

@[simp]
lemma decrActive_counts (g : GroupSt K) :
    g.decrActive.counts = { g.counts with Active := decr64 g.counts.Active } := by
  simp [GroupSt.decrActive]

@[simp]
lemma decrActive_candidate (g : GroupSt K) : g.decrActive.candidate = g.candidate := by
  simp [GroupSt.decrActive]

@[simp]
lemma decrActive_pc (g : GroupSt K) : g.decrActive.pc = g.pc := by
  simp [GroupSt.decrActive]

@[simp]
lemma setTarget_gid (g : GroupSt K) (t : Nat) : (g.SetTarget t).gid = g.gid := by
  simp [GroupSt.SetTarget]

@[simp]
lemma setTarget_key (g : GroupSt K) (t : Nat) : (g.SetTarget t).key = g.key := by
  simp [GroupSt.SetTarget]

@[simp]
lemma setTarget_counts (g : GroupSt K) (t : Nat) :
    (g.SetTarget t).counts = { g.counts with Target := t } := by
  simp [GroupSt.SetTarget]

@[simp]
lemma setTarget_candidate (g : GroupSt K) (t : Nat) :
    (g.SetTarget t).candidate = g.candidate := by
  simp [GroupSt.SetTarget]

@[simp]
lemma setTarget_pc (g : GroupSt K) (t : Nat) : (g.SetTarget t).pc = g.pc := by
  simp [GroupSt.SetTarget]

/-! Arithmetic and pending-increment helpers. -/

lemma W64_eq : W64 = 18446744073709551616 := by norm_num [W64]

lemma W64_pos : 0 < W64 := by rw [W64_eq]; omega

lemma pendInc_le_one (g : GroupSt K) : pendInc g ≤ 1 := by
  unfold pendInc
  split <;> omega

@[simp]
lemma pendInc_notify (g : GroupSt K) : pendInc g.notify = pendInc g := by
  simp [pendInc]

@[simp]
lemma pendInc_decrActive (g : GroupSt K) : pendInc g.decrActive = pendInc g := by
  simp [pendInc]

@[simp]
lemma pendInc_setTarget (g : GroupSt K) (t : Nat) :
    pendInc (g.SetTarget t) = pendInc g := by
  simp [pendInc]

/-! Registry (association list) lemmas. -/

@[simp]
lemma lookupKey_nil (k : K) : lookupKey ([] : List (K × Nat)) k = none := rfl

lemma lookupKey_cons (p : K × Nat) (rest : List (K × Nat)) (k : K) :
    lookupKey (p :: rest) k = if p.1 = k then some p.2 else lookupKey rest k := rfl

@[simp]
lemma removeKey_nil (k : K) : removeKey ([] : List (K × Nat)) k = [] := rfl

lemma removeKey_cons (p : K × Nat) (rest : List (K × Nat)) (k : K) :
    removeKey (p :: rest) k =
      if p.1 = k then removeKey rest k else p :: removeKey rest k := rfl

lemma mem_of_lookupKey {reg : List (K × Nat)} {k : K} {gid : Nat}
    (h : lookupKey reg k = some gid) : (k, gid) ∈ reg := by
  induction reg with
  | nil => simp at h
  | cons p rest ih =>
    by_cases hp : p.1 = k
    · subst hp
      simp [lookupKey_cons] at h
      subst h
      exact List.mem_cons.mpr (Or.inl Prod.mk.eta)
    · simp [lookupKey_cons, hp] at h
      exact List.mem_cons_of_mem _ (ih h)

lemma lookupKey_eq_none {reg : List (K × Nat)} {k : K}
    (h : ∀ p ∈ reg, p.1 ≠ k) : lookupKey reg k = none := by
  induction reg with
  | nil => rfl
  | cons p rest ih =>
    have hp : p.1 ≠ k := h p (List.mem_cons_self _ _)
    simp only [lookupKey_cons, if_neg hp]
    exact ih (fun q hq => h q (List.mem_cons_of_mem _ hq))

lemma lookupKey_removeKey_self (reg : List (K × Nat)) (k : K) :
    lookupKey (removeKey reg k) k = none := by
  induction reg with
  | nil => rfl
  | cons p rest ih =>
    by_cases hp : p.1 = k
    · simpa [removeKey_cons, hp] using ih
    · simpa [removeKey_cons, lookupKey_cons, hp] using ih

lemma lookupKey_removeKey_ne {k k' : K} (reg : List (K × Nat)) (h : k ≠ k') :
    lookupKey (removeKey reg k') k = lookupKey reg k := by
  induction reg with
  | nil => rfl
  | cons p rest ih =>
    by_cases hp : p.1 = k'
    · have hk : p.1 ≠ k := by rw [hp]; exact fun hc => h hc.symm
      simp only [removeKey_cons, if_pos hp, lookupKey_cons, if_neg hk]
      exact ih
    · simp only [removeKey_cons, if_neg hp, lookupKey_cons]
      by_cases hk : p.1 = k
      · simp [hk]
      · simp [hk, ih]

lemma removeKey_sublist (reg : List (K × Nat)) (k : K) :
    List.Sublist (removeKey reg k) reg := by
  induction reg with
  | nil => simp
  | cons p rest ih =>
    by_cases hp : p.1 = k
    · simp only [removeKey_cons, if_pos hp]
      exact ih.cons p
    · simp only [removeKey_cons, if_neg hp]
      exact ih.cons₂ p

lemma mem_removeKey {reg : List (K × Nat)} {k : K} {p : K × Nat}
    (h : p ∈ removeKey reg k) : p ∈ reg :=
  (removeKey_sublist reg k).subset h

lemma lookupKey_distinct {reg : List (K × Nat)} {k k' : K} {a b : Nat}
    (hnd : (reg.map (fun p => p.2)).Nodup) (hne : k ≠ k')
    (ha : lookupKey reg k = some a) (hb : lookupKey reg k' = some b) :
    a ≠ b := by
  induction reg with
  | nil => simp at ha
  | cons p rest ih =>
    simp only [List.map_cons, List.nodup_cons] at hnd
    by_cases hk : p.1 = k
    · have hk' : p.1 ≠ k' := by rw [hk]; exact hne
      simp only [lookupKey_cons, if_pos hk, Option.some.injEq] at ha
      simp only [lookupKey_cons, if_neg hk'] at hb
      subst ha
      intro hab
      exact hnd.1 (hab ▸ List.mem_map_of_mem _ (mem_of_lookupKey hb))
    · by_cases hk' : p.1 = k'
      · simp only [lookupKey_cons, if_pos hk', Option.some.injEq] at hb
        simp only [lookupKey_cons, if_neg hk] at ha
        subst hb
        intro hab
        exact hnd.1 (hab ▸ List.mem_map_of_mem _ (mem_of_lookupKey ha))
      · simp only [lookupKey_cons, if_neg hk] at ha
        simp only [lookupKey_cons, if_neg hk'] at hb
        exact ih hnd.2 ha hb

/-! Lemmas about findGroup and updateGroup. -/

@[simp]
lemma updateGroup_registry (s : PoolSt K) (gid : Nat) (f : GroupSt K → GroupSt K) :
    (updateGroup s gid f).registry = s.registry := rfl

@[simp]
lemma updateGroup_leases (s : PoolSt K) (gid : Nat) (f : GroupSt K → GroupSt K) :
    (updateGroup s gid f).leases = s.leases := rfl

@[simp]
lemma updateGroup_leaseIDs (s : PoolSt K) (gid : Nat) (f : GroupSt K → GroupSt K) :
    (updateGroup s gid f).leaseIDs = s.leaseIDs := rfl

@[simp]
lemma updateGroup_nextGid (s : PoolSt K) (gid : Nat) (f : GroupSt K → GroupSt K) :
    (updateGroup s gid f).nextGid = s.nextGid := rfl

@[simp]
lemma updateGroup_stopped (s : PoolSt K) (gid : Nat) (f : GroupSt K → GroupSt K) :
    (updateGroup s gid f).stopped = s.stopped := rfl

@[simp]
lemma unreleasedCount_updateGroup (s : PoolSt K) (gid : Nat)
    (f : GroupSt K → GroupSt K) (j : Nat) :
    unreleasedCount (updateGroup s gid f) j = unreleasedCount s j := rfl

lemma find?_map_update (L : List (GroupSt K)) (gid j : Nat)
    (f : GroupSt K → GroupSt K) (hf : ∀ x, (f x).gid = x.gid) :
    (L.map (fun g => if g.gid == gid then f g else g)).find? (fun g => g.gid == j) =
      if j = gid then (L.find? (fun g => g.gid == gid)).map f
      else L.find? (fun g => g.gid == j) := by
  induction L with
  | nil => by_cases h : j = gid <;> simp [h]
  | cons g rest ih =>
    simp only [List.map_cons]
    by_cases hg : g.gid = gid
    · rw [if_pos (by simp [hg] : (g.gid == gid) = true)]
      by_cases hj : j = gid
      · subst hj
        rw [List.find?_cons_of_pos _ (by simp [hf g, hg]),
          List.find?_cons_of_pos _ (by simp [hg]), if_pos rfl]
        rfl
      · rw [List.find?_cons_of_neg _ (by simp [hf g, hg]; omega), ih, if_neg hj,
          if_neg hj, List.find?_cons_of_neg _ (by simp [hg]; omega)]
    · rw [if_neg (by simp [hg] : ¬(g.gid == gid) = true)]
      by_cases hgj : g.gid = j
      · have hj : j ≠ gid := fun hc => hg (hgj.trans hc)
        rw [List.find?_cons_of_pos _ (by simp [hgj]), if_neg hj,
          List.find?_cons_of_pos _ (by simp [hgj])]
      · rw [List.find?_cons_of_neg _ (by simp [hgj]), ih]
        by_cases hj : j = gid
        · subst hj
          rw [if_pos rfl, if_pos rfl, List.find?_cons_of_neg _ (by simp [hg])]
        · rw [if_neg hj, if_neg hj, List.find?_cons_of_neg _ (by simp [hgj])]

lemma findGroup_updateGroup (s : PoolSt K) (gid j : Nat)
    (f : GroupSt K → GroupSt K) (hf : ∀ x, (f x).gid = x.gid) :
    findGroup (updateGroup s gid f) j =
      if j = gid then (findGroup s gid).map f else findGroup s j :=
  find?_map_update s.groups gid j f hf

lemma findGroup_mem {s : PoolSt K} {gid : Nat} {g : GroupSt K}
    (h : findGroup s gid = some g) : g ∈ s.groups ∧ g.gid = gid := by
  refine ⟨List.mem_of_find?_eq_some h, ?_⟩
  have := List.find?_some h
  simpa using this

lemma findGroup_isSome {s : PoolSt K} {gid : Nat}
    (h : ∃ g ∈ s.groups, g.gid = gid) :
    ∃ g, findGroup s gid = some g ∧ g.gid = gid := by
  obtain ⟨g, hg, hgid⟩ := h
  have hs : (s.groups.find? (fun x => x.gid == gid)).isSome := by
    rw [List.find?_isSome]
    exact ⟨g, hg, by simp [hgid]⟩
  obtain ⟨g', hg'⟩ := Option.isSome_iff_exists.mp hs
  exact ⟨g', hg', (findGroup_mem hg').2⟩

lemma mem_updateGroup {s : PoolSt K} {gid : Nat} {f : GroupSt K → GroupSt K}
    {x : GroupSt K} (h : x ∈ (updateGroup s gid f).groups) :
    ∃ y ∈ s.groups, x = if y.gid == gid then f y else y := by
  obtain ⟨y, hy, hxy⟩ := List.mem_map.mp h
  exact ⟨y, hy, hxy.symm⟩

lemma updateGroup_map_gid (s : PoolSt K) (gid : Nat)
    (f : GroupSt K → GroupSt K) (hf : ∀ x, (f x).gid = x.gid) :
    (updateGroup s gid f).groups.map (fun g => g.gid) =
      s.groups.map (fun g => g.gid) := by
  simp only [updateGroup, List.map_map]
  apply List.map_congr_left
  intro a _
  by_cases h : a.gid = gid <;> simp [h, hf]

/-! Lemmas about markReleased. -/

lemma markReleased_cons (l : LeaseRec K) (rest : List (LeaseRec K)) (lid : Nat) :
    markReleased (l :: rest) lid =
      if l.lid = lid then { l with released := true } :: rest
      else l :: markReleased rest lid := rfl

lemma mem_markReleased {L : List (LeaseRec K)} {lid : Nat} {x : LeaseRec K}
    (h : x ∈ markReleased L lid) :
    ∃ y ∈ L, x = y ∨ x = { y with released := true } := by
  induction L with
  | nil => simp [markReleased] at h
  | cons l rest ih =>
    by_cases hl : l.lid = lid
    · rw [markReleased_cons, if_pos hl] at h
      rcases List.mem_cons.mp h with h | h
      · exact ⟨l, List.mem_cons_self _ _, Or.inr h⟩
      · exact ⟨x, List.mem_cons_of_mem _ h, Or.inl rfl⟩
    · rw [markReleased_cons, if_neg hl] at h
      rcases List.mem_cons.mp h with h | h
      · exact ⟨l, List.mem_cons_self _ _, Or.inl h⟩
      · obtain ⟨y, hy, hxy⟩ := ih h
        exact ⟨y, List.mem_cons_of_mem _ hy, hxy⟩

lemma markReleased_map_lid (L : List (LeaseRec K)) (lid : Nat) :
    (markReleased L lid).map (fun l => l.lid) = L.map (fun l => l.lid) := by
  induction L with
  | nil => rfl
  | cons l rest ih =>
    by_cases hl : l.lid = lid <;> simp [markReleased_cons, hl, ih]

lemma markReleased_filter_map_lid (L : List (LeaseRec K)) (lid j : Nat) :
    ((markReleased L lid).filter (fun l => l.gid == j)).map (fun l => l.lid) =
      (L.filter (fun l => l.gid == j)).map (fun l => l.lid) := by
  induction L with
  | nil => rfl
  | cons l rest ih =>
    by_cases hl : l.lid = lid
    · rw [markReleased_cons, if_pos hl]
      by_cases hg : l.gid = j <;> simp [List.filter_cons, hg]
    · rw [markReleased_cons, if_neg hl]
      by_cases hg : l.gid = j <;> simp [List.filter_cons, hg, ih]

lemma find?_markReleased {L : List (LeaseRec K)} {lid : Nat} {l : LeaseRec K}
    (h : L.find? (fun r => r.lid == lid) = some l) :
    (markReleased L lid).find? (fun r => r.lid == lid) =
      some { l with released := true } := by
  induction L with
  | nil => simp at h
  | cons r rest ih =>
    by_cases hr : r.lid = lid
    · rw [List.find?_cons_of_pos _ (by simp [hr])] at h
      injection h with h
      subst h
      rw [markReleased_cons, if_pos hr]
      exact List.find?_cons_of_pos _ (by simp [hr])
    · rw [List.find?_cons_of_neg _ (by simp [hr])] at h
      rw [markReleased_cons, if_neg hr, List.find?_cons_of_neg _ (by simp [hr])]
      exact ih h

lemma countP_markReleased_self {L : List (LeaseRec K)} {lid : Nat} {l : LeaseRec K}
    (h : L.find? (fun r => r.lid == lid) = some l) (hrel : l.released = false) :
    (markReleased L lid).countP (fun r => r.gid == l.gid && !r.released) + 1 =
      L.countP (fun r => r.gid == l.gid && !r.released) := by
  induction L with
  | nil => simp at h
  | cons r rest ih =>
    by_cases hr : r.lid = lid
    · rw [List.find?_cons_of_pos _ (by simp [hr])] at h
      injection h with h
      subst h
      rw [markReleased_cons, if_pos hr]
      simp [List.countP_cons, hrel]
    · rw [List.find?_cons_of_neg _ (by simp [hr])] at h
      rw [markReleased_cons, if_neg hr]
      simp only [List.countP_cons]
      have := ih h
      omega

lemma countP_markReleased_other {L : List (LeaseRec K)} {lid : Nat}
    {l : LeaseRec K} {j : Nat}
    (h : L.find? (fun r => r.lid == lid) = some l) (hj : j ≠ l.gid) :
    (markReleased L lid).countP (fun r => r.gid == j && !r.released) =
      L.countP (fun r => r.gid == j && !r.released) := by
  induction L with
  | nil => simp at h
  | cons r rest ih =>
    by_cases hr : r.lid = lid
    · rw [List.find?_cons_of_pos _ (by simp [hr])] at h
      injection h with h
      subst h
      rw [markReleased_cons, if_pos hr]
      have hgj : (r.gid == j) = false := by simp; omega
      simp [List.countP_cons, hgj]
    · rw [List.find?_cons_of_neg _ (by simp [hr])] at h
      rw [markReleased_cons, if_neg hr]
      simp only [List.countP_cons, ih h]

/-! Preservation of well-formedness.  Most pool operations only touch
fields of existing groups other than gid, candidate and counts.Active;
one master lemma covers all of them. -/

lemma WF_mapGroups {s : PoolSt K} (hW : WF s) (f : GroupSt K → GroupSt K)
    (hgid : ∀ x, (f x).gid = x.gid)
    (hcand : ∀ x, (f x).candidate = x.candidate)
    (hae : ∀ x ∈ s.groups, (f x).counts.Active < W64 ∧
      ((f x).counts.Active + pendInc (f x)) % W64 = unreleasedCount s x.gid % W64) :
    WF { s with groups := s.groups.map f } := by
  constructor
  case gidsNodup =>
    have he : (s.groups.map f).map (fun g => g.gid) =
        s.groups.map (fun g => g.gid) := by
      rw [List.map_map]
      apply List.map_congr_left
      intro a _
      simp [Function.comp, hgid]
    simpa [he] using hW.gidsNodup
  case gidsLt =>
    intro g hg
    obtain ⟨y, hy, rfl⟩ := List.mem_map.mp hg
    rw [hgid]
    exact hW.gidsLt y hy
  case regWf =>
    intro p hp
    obtain ⟨g, hg, hgp⟩ := hW.regWf p hp
    exact ⟨f g, List.mem_map_of_mem f hg, by rw [hgid]; exact hgp⟩
  case regGidsNodup => exact hW.regGidsNodup
  case leaseIdBounds => exact hW.leaseIdBounds
  case candBounds =>
    intro g hg c hc
    obtain ⟨y, hy, rfl⟩ := List.mem_map.mp hg
    rw [hcand] at hc
    exact hW.candBounds y hy c hc
  case lidsNodup => exact hW.lidsNodup
  case candsFresh =>
    intro g hg c hc l hl
    obtain ⟨y, hy, rfl⟩ := List.mem_map.mp hg
    rw [hcand] at hc
    exact hW.candsFresh y hy c hc l hl
  case candsDistinct =>
    intro g hg h hh c d hc hd hne
    obtain ⟨y, hy, rfl⟩ := List.mem_map.mp hg
    obtain ⟨z, hz, rfl⟩ := List.mem_map.mp hh
    rw [hcand] at hc hd
    rw [hgid, hgid] at hne
    exact hW.candsDistinct y hy z hz c d hc hd hne
  case activeEq =>
    intro g hg
    obtain ⟨y, hy, rfl⟩ := List.mem_map.mp hg
    rw [hgid]
    exact hae y hy
  case leaseGidWf =>
    intro l hl
    obtain ⟨g, hg, hgl⟩ := hW.leaseGidWf l hl
    exact ⟨f g, List.mem_map_of_mem f hg, by rw [hgid]; exact hgl⟩
  case candGt =>
    intro g hg c hc l hl hlg
    obtain ⟨y, hy, rfl⟩ := List.mem_map.mp hg
    rw [hcand] at hc
    rw [hgid] at hlg
    exact hW.candGt y hy c hc l hl hlg
  case perGroupSorted => exact hW.perGroupSorted

lemma WF_mapGroups_benign {s : PoolSt K} (hW : WF s) (f : GroupSt K → GroupSt K)
    (hgid : ∀ x, (f x).gid = x.gid)
    (hcand : ∀ x, (f x).candidate = x.candidate)
    (hact : ∀ x, (f x).counts.Active = x.counts.Active)
    (hpend : ∀ x, pendInc (f x) = pendInc x) :
    WF { s with groups := s.groups.map f } :=
  WF_mapGroups hW f hgid hcand (fun x hx => by
    rw [hact, hpend]
    exact hW.activeEq x hx)

lemma WF_updateGroup {s : PoolSt K} (hW : WF s) (gid : Nat)
    (f : GroupSt K → GroupSt K)
    (hgid : ∀ x, (f x).gid = x.gid)
    (hcand : ∀ x, (f x).candidate = x.candidate)
    (hact : ∀ x, (f x).counts.Active = x.counts.Active)
    (hpend : ∀ x, pendInc (f x) = pendInc x) :
    WF (updateGroup s gid f) := by
  refine WF_mapGroups_benign hW _ ?_ ?_ ?_ ?_ <;> intro x <;>
    by_cases h : x.gid = gid <;> simp [h, hgid, hcand, hact, hpend]

lemma WF_updateGroup_at {s : PoolSt K} {gid : Nat} {g : GroupSt K} (hW : WF s)
    (hg : findGroup s gid = some g) (f : GroupSt K → GroupSt K)
    (hgid : ∀ x, (f x).gid = x.gid)
    (hcand : ∀ x, (f x).candidate = x.candidate)
    (hact : (f g).counts.Active = g.counts.Active)
    (hpend : pendInc (f g) = pendInc g) :
    WF (updateGroup s gid f) := by
  obtain ⟨hgmem, hggid⟩ := findGroup_mem hg
  refine WF_mapGroups hW _ ?_ ?_ ?_
  · intro x
    by_cases h : x.gid = gid <;> simp [h, hgid]
  · intro x
    by_cases h : x.gid = gid <;> simp [h, hcand]
  · intro x hx
    by_cases h : x.gid = gid
    · have hxg : x = g :=
        List.inj_on_of_nodup_map hW.gidsNodup hx hgmem (by simp [h, hggid])
      have hres := hW.activeEq g hgmem
      rw [← hact, ← hpend] at hres
      rw [← hxg] at hres
      simpa [h] using hres
    · simpa [h] using hW.activeEq x hx

lemma wf_initPool : WF (initPool : PoolSt K) := by
  constructor <;> intros <;> simp_all [initPool, unreleasedCount]

lemma WF_stopped {s : PoolSt K} (hW : WF s) (b : Bool) :
    WF { s with stopped := b } :=
  ⟨hW.gidsNodup, hW.gidsLt, hW.regWf, hW.regGidsNodup, hW.leaseIdBounds,
   hW.candBounds, hW.lidsNodup, hW.candsFresh, hW.candsDistinct, hW.activeEq,
   hW.leaseGidWf, hW.candGt, hW.perGroupSorted⟩

lemma WF_setRegistry {s : PoolSt K} (hW : WF s) {R : List (K × Nat)}
    (hsub : List.Sublist R s.registry) : WF { s with registry := R } := by
  constructor
  case regWf => exact fun p hp => hW.regWf p (hsub.subset hp)
  case regGidsNodup => exact hW.regGidsNodup.sublist (hsub.map _)
  all_goals first
  | exact hW.gidsNodup
  | exact hW.gidsLt
  | exact hW.leaseIdBounds
  | exact hW.candBounds
  | exact hW.lidsNodup
  | exact hW.candsFresh
  | exact hW.candsDistinct
  | exact hW.activeEq
  | exact hW.leaseGidWf
  | exact hW.candGt
  | exact hW.perGroupSorted

lemma wf_Stop {s : PoolSt K} (hW : WF s) : WF s.Stop :=
  WF_stopped
    (WF_mapGroups_benign hW (fun g => { g with cancelled := true })
      (fun _ => rfl) (fun _ => rfl) (fun _ => rfl) (fun _ => rfl)) true

lemma wf_del {s : PoolSt K} (hW : WF s) (k : K) : WF (s.del k) := by
  unfold PoolSt.del
  cases hl : lookupKey s.registry k with
  | none => exact hW
  | some gid =>
    have h1 : WF (updateGroup s gid (fun g => { g with cancelled := true })) :=
      WF_updateGroup hW gid _ (fun _ => rfl) (fun _ => rfl) (fun _ => rfl)
        (fun _ => rfl)
    exact WF_setRegistry h1 (by simpa using removeKey_sublist s.registry k)

lemma wf_start {s : PoolSt K} (hW : WF s) (k : K) (t : Nat) :
    WF (s.start k t) := by
  constructor
  case gidsNodup =>
    simp only [PoolSt.start, List.map_append, List.map_cons, List.map_nil]
    refine hW.gidsNodup.append (List.nodup_singleton _) ?_
    intro a ha hb
    simp only [List.mem_singleton] at hb
    subst hb
    obtain ⟨y, hy, hya⟩ := List.mem_map.mp ha
    exact absurd (hya ▸ hW.gidsLt y hy) (lt_irrefl _)
  case gidsLt =>
    intro g hg
    simp only [PoolSt.start] at hg ⊢
    rcases List.mem_append.mp hg with h | h
    · exact Nat.lt_succ_of_lt (hW.gidsLt g h)
    · simp only [List.mem_singleton] at h
      subst h
      exact Nat.lt_succ_self _
  case regWf =>
    intro p hp
    simp only [PoolSt.start] at hp ⊢
    rcases List.mem_cons.mp hp with h | h
    · subst h
      refine ⟨_, List.mem_append.mpr (Or.inr (List.mem_singleton.mpr rfl)), rfl⟩
    · obtain ⟨g, hg, hgp⟩ := hW.regWf p h
      exact ⟨g, List.mem_append.mpr (Or.inl hg), hgp⟩
  case regGidsNodup =>
    simp only [PoolSt.start, List.map_cons, List.nodup_cons]
    refine ⟨?_, hW.regGidsNodup⟩
    intro hmem
    obtain ⟨p, hp, hp2⟩ := List.mem_map.mp hmem
    obtain ⟨g, hg, hgp⟩ := hW.regWf p hp
    have := hW.gidsLt g hg
    omega
  case leaseIdBounds => exact hW.leaseIdBounds
  case candBounds =>
    intro g hg c hc
    simp only [PoolSt.start] at hg
    rcases List.mem_append.mp hg with h | h
    · exact hW.candBounds g h c hc
    · simp only [List.mem_singleton] at h
      subst h
      simp at hc
  case lidsNodup => exact hW.lidsNodup
  case candsFresh =>
    intro g hg c hc l hl
    simp only [PoolSt.start] at hg hl
    rcases List.mem_append.mp hg with h | h
    · exact hW.candsFresh g h c hc l hl
    · simp only [List.mem_singleton] at h
      subst h
      simp at hc
  case candsDistinct =>
    intro g hg h hh c d hc hd hne
    simp only [PoolSt.start] at hg hh
    rcases List.mem_append.mp hg with h1 | h1
    · rcases List.mem_append.mp hh with h2 | h2
      · exact hW.candsDistinct g h1 h h2 c d hc hd hne
      · simp only [List.mem_singleton] at h2
        subst h2
        simp at hd
    · simp only [List.mem_singleton] at h1
      subst h1
      simp at hc
  case activeEq =>
    intro g hg
    simp only [PoolSt.start] at hg
    rcases List.mem_append.mp hg with h | h
    · exact hW.activeEq g h
    · simp only [List.mem_singleton] at h
      subst h
      have hz : unreleasedCount (s.start k t) s.nextGid = 0 := by
        simp only [unreleasedCount, PoolSt.start]
        rw [List.countP_eq_zero]
        intro l hl
        obtain ⟨y, hy, hyl⟩ := hW.leaseGidWf l hl
        have := hW.gidsLt y hy
        simp only [Bool.and_eq_true, beq_iff_eq]
        intro hc
        omega
      refine ⟨W64_pos, ?_⟩
      simpa [pendInc] using congrArg (· % W64) hz.symm
  case leaseGidWf =>
    intro l hl
    obtain ⟨g, hg, hgl⟩ := hW.leaseGidWf l hl
    exact ⟨g, List.mem_append.mpr (Or.inl hg), hgl⟩
  case candGt =>
    intro g hg c hc l hl hlg
    simp only [PoolSt.start] at hg
    rcases List.mem_append.mp hg with h | h
    · exact hW.candGt g h c hc l hl hlg
    · simp only [List.mem_singleton] at h
      subst h
      simp at hc
  case perGroupSorted => exact hW.perGroupSorted

lemma wf_Set {s : PoolSt K} (hW : WF s) (k : K) (t : Nat) : WF (s.Set k t) := by
  unfold PoolSt.Set
  by_cases h : t < 1
  · simpa [h] using wf_del hW k
  · rw [if_neg h]
    cases hl : lookupKey s.registry k with
    | none => exact wf_start hW k t
    | some gid =>
      exact WF_updateGroup hW gid _ (fun x => by simp) (fun x => by simp)
        (fun x => by simp) (fun x => by simp)

lemma updateGroup_exists_gid {s : PoolSt K} {j : Nat} (gid : Nat)
    {f : GroupSt K → GroupSt K} (hf : ∀ x, (f x).gid = x.gid)
    (h : ∃ g ∈ s.groups, g.gid = j) :
    ∃ g ∈ (updateGroup s gid f).groups, g.gid = j := by
  obtain ⟨g, hg, hgj⟩ := h
  have hm : (if g.gid == gid then f g else g) ∈ (updateGroup s gid f).groups :=
    List.mem_map_of_mem _ hg
  by_cases hc : g.gid = gid
  · rw [if_pos (by simp [hc])] at hm
    exact ⟨f g, hm, by rw [hf]; exact hgj⟩
  · rw [if_neg (by simp [hc])] at hm
    exact ⟨g, hm, hgj⟩

lemma wf_notifyStep {s s' : PoolSt K} {gid : Nat} (hW : WF s)
    (h : notifyStep s gid = some s') : WF s' := by
  unfold notifyStep at h
  cases hgf : findGroup s gid with
  | none => simp [hgf] at h
  | some g =>
    simp only [hgf] at h
    by_cases hc : g.pc = LoopPC.atSelect ∧ g.notified = true
    · rw [if_pos hc] at h
      injection h with h
      subst h
      exact WF_updateGroup_at hW hgf _ (fun _ => rfl) (fun _ => rfl) rfl
        (by simp [pendInc, hc.1])
    · rw [if_neg hc] at h
      exact absurd h (by simp)

lemma wf_doneStep {s s' : PoolSt K} {gid : Nat} (hW : WF s)
    (h : doneStep s gid = some s') : WF s' := by
  unfold doneStep at h
  cases hgf : findGroup s gid with
  | none => simp [hgf] at h
  | some g =>
    simp only [hgf] at h
    by_cases hc : g.pc = LoopPC.atSelect ∧ g.cancelled = true
    · rw [if_pos hc] at h
      injection h with h
      subst h
      exact WF_updateGroup_at hW hgf _ (fun _ => rfl) (fun _ => rfl) rfl
        (by simp [pendInc, hc.1])
    · rw [if_neg hc] at h
      exact absurd h (by simp)

lemma wf_alloc {s : PoolSt K} {gid : Nat} {g : GroupSt K} (hW : WF s)
    (hgf : findGroup s gid = some g) (hpc : g.pc = LoopPC.needEval) :
    WF { updateGroup s gid (fun x =>
           { x with grantLive := true, candidate := some (s.leaseIDs + 1),
                    pc := LoopPC.atSelect })
         with leaseIDs := s.leaseIDs + 1 } := by
  obtain ⟨hgmem, hggid⟩ := findGroup_mem hgf
  constructor
  case gidsNodup =>
    have he := updateGroup_map_gid s gid (fun x =>
      { x with grantLive := true, candidate := some (s.leaseIDs + 1),
               pc := LoopPC.atSelect }) (fun _ => rfl)
    exact he ▸ hW.gidsNodup
  case gidsLt =>
    intro g hg
    obtain ⟨y, hy, hgy⟩ := mem_updateGroup hg
    have := hW.gidsLt y hy
    by_cases hc : y.gid = gid <;> simp [hc, hgy] <;> omega
  case regWf =>
    intro p hp
    exact updateGroup_exists_gid gid (fun _ => rfl) (hW.regWf p hp)
  case regGidsNodup => exact hW.regGidsNodup
  case leaseIdBounds =>
    dsimp only
    intro l hl
    have := hW.leaseIdBounds l hl
    omega
  case candBounds =>
    dsimp only
    intro g hg c hc
    obtain ⟨y, hy, hgy⟩ := mem_updateGroup hg
    by_cases hyg : y.gid = gid
    · rw [if_pos (by simp [hyg])] at hgy
      subst hgy
      simp only [Option.some.injEq] at hc
      omega
    · rw [if_neg (by simp [hyg])] at hgy
      subst hgy
      have := hW.candBounds g hy c hc
      omega
  case lidsNodup => exact hW.lidsNodup
  case candsFresh =>
    dsimp only
    intro g hg c hc l hl
    obtain ⟨y, hy, hgy⟩ := mem_updateGroup hg
    have hb := hW.leaseIdBounds l hl
    by_cases hyg : y.gid = gid
    · rw [if_pos (by simp [hyg])] at hgy
      subst hgy
      simp only [Option.some.injEq] at hc
      omega
    · rw [if_neg (by simp [hyg])] at hgy
      subst hgy
      exact hW.candsFresh g hy c hc l hl
  case candsDistinct =>
    dsimp only
    intro g hg h hh c d hc hd hne
    obtain ⟨y, hy, hgy⟩ := mem_updateGroup hg
    obtain ⟨z, hz, hgz⟩ := mem_updateGroup hh
    by_cases hyg : y.gid = gid
    · by_cases hzg : z.gid = gid
      · exfalso
        apply hne
        rw [if_pos (by simp [hyg])] at hgy
        rw [if_pos (by simp [hzg])] at hgz
        subst hgy
        subst hgz
        simp [hyg, hzg]
      · rw [if_pos (by simp [hyg])] at hgy
        rw [if_neg (by simp [hzg])] at hgz
        subst hgy
        subst hgz
        simp only [Option.some.injEq] at hc
        have := hW.candBounds h hz d hd
        omega
    · by_cases hzg : z.gid = gid
      · rw [if_neg (by simp [hyg])] at hgy
        rw [if_pos (by simp [hzg])] at hgz
        subst hgy
        subst hgz
        simp only [Option.some.injEq] at hd
        have := hW.candBounds g hy c hc
        omega
      · rw [if_neg (by simp [hyg])] at hgy
        rw [if_neg (by simp [hzg])] at hgz
        subst hgy
        subst hgz
        exact hW.candsDistinct g hy h hz c d hc hd hne
  case activeEq =>
    dsimp only
    intro g' hg'
    obtain ⟨y, hy, hgy⟩ := mem_updateGroup hg'
    have hae := hW.activeEq y hy
    by_cases hyg : y.gid = gid
    · have hyeq : y = g :=
        List.inj_on_of_nodup_map hW.gidsNodup hy hgmem (by simp [hyg, hggid])
      rw [if_pos (by simp [hyg])] at hgy
      subst hgy
      have hp0 : pendInc y = 0 := by
        rw [hyeq]
        simp [pendInc, hpc]
      have hco := hae.2
      rw [hp0] at hco
      refine ⟨hae.1, ?_⟩
      simpa [unreleasedCount, pendInc] using hco
    · rw [if_neg (by simp [hyg])] at hgy
      subst hgy
      refine ⟨hae.1, ?_⟩
      simpa [unreleasedCount] using hae.2
  case leaseGidWf =>
    intro l hl
    exact updateGroup_exists_gid gid (fun _ => rfl) (hW.leaseGidWf l hl)
  case candGt =>
    dsimp only
    intro g hg c hc l hl hlg
    obtain ⟨y, hy, hgy⟩ := mem_updateGroup hg
    have hb := hW.leaseIdBounds l hl
    by_cases hyg : y.gid = gid
    · rw [if_pos (by simp [hyg])] at hgy
      subst hgy
      simp only [Option.some.injEq] at hc
      omega
    · rw [if_neg (by simp [hyg])] at hgy
      subst hgy
      exact hW.candGt g hy c hc l hl hlg
  case perGroupSorted => exact hW.perGroupSorted

lemma wf_reevalStep {s s' : PoolSt K} {gid : Nat} (hW : WF s)
    (h : reevalStep s gid = some s') : WF s' := by
  unfold reevalStep at h
  cases hgf : findGroup s gid with
  | none => simp [hgf] at h
  | some g =>
    simp only [hgf] at h
    by_cases hpc : g.pc = LoopPC.needEval
    · rw [if_pos hpc] at h
      by_cases hat : g.counts.Active < g.counts.Target
      · rw [if_pos hat] at h
        cases hcand : g.candidate with
        | some c =>
          rw [hcand] at h
          injection h with h
          subst h
          exact WF_updateGroup_at hW hgf _ (fun _ => rfl) (fun _ => rfl) rfl
            (by simp [pendInc, hpc])
        | none =>
          rw [hcand] at h
          injection h with h
          subst h
          exact wf_alloc hW hgf hpc
      · rw [if_neg hat] at h
        injection h with h
        subst h
        exact WF_updateGroup_at hW hgf _ (fun _ => rfl) (fun _ => rfl) rfl
          (by simp [pendInc, hpc])
    · rw [if_neg hpc] at h
      exact absurd h (by simp)

lemma decr64_of_pos {n : Nat} (h : 1 ≤ n) : decr64 n = n - 1 := by
  unfold decr64
  rw [if_neg]
  omega

lemma wf_grant_core {s : PoolSt K} {gid lid : Nat} {g : GroupSt K} (hW : WF s)
    (hgf : findGroup s gid = some g) (hcand : g.candidate = some lid)
    (hpc : g.pc = LoopPC.atSelect) :
    WF { updateGroup s gid (fun x =>
           { x with candidate := none, pc := LoopPC.postGrant })
         with leases := s.leases ++
           [{ lid := lid, key := g.key, gid := g.gid, released := false }] } := by
  obtain ⟨hgmem, hggid⟩ := findGroup_mem hgf
  have hlidb := hW.candBounds g hgmem lid hcand
  constructor
  case gidsNodup =>
    have he := updateGroup_map_gid s gid (fun x =>
      { x with candidate := none, pc := LoopPC.postGrant })
      (fun x => by simp)
    exact he ▸ hW.gidsNodup
  case gidsLt =>
    dsimp only
    intro g' hg'
    obtain ⟨y, hy, hgy⟩ := mem_updateGroup hg'
    have := hW.gidsLt y hy
    by_cases hyg : y.gid = gid
    · rw [if_pos (by simp [hyg])] at hgy
      subst hgy
      simpa using this
    · rw [if_neg (by simp [hyg])] at hgy
      subst hgy
      exact this
  case regWf =>
    intro p hp
    exact updateGroup_exists_gid gid (fun x => by simp) (hW.regWf p hp)
  case regGidsNodup => exact hW.regGidsNodup
  case leaseIdBounds =>
    dsimp only
    intro l hl
    rcases List.mem_append.mp hl with h | h
    · exact hW.leaseIdBounds l h
    · simp only [List.mem_singleton] at h
      subst h
      exact hlidb
  case candBounds =>
    dsimp only
    intro g' hg' c hc
    obtain ⟨y, hy, hgy⟩ := mem_updateGroup hg'
    by_cases hyg : y.gid = gid
    · rw [if_pos (by simp [hyg])] at hgy
      subst hgy
      simp at hc
    · rw [if_neg (by simp [hyg])] at hgy
      subst hgy
      exact hW.candBounds g' hy c hc
  case lidsNodup =>
    dsimp only
    rw [List.map_append]
    refine hW.lidsNodup.append (by simp) ?_
    intro a ha hb
    simp only [List.map_cons, List.map_nil, List.mem_singleton] at hb
    obtain ⟨l0, hl0, hl0a⟩ := List.mem_map.mp ha
    exact hW.candsFresh g hgmem lid hcand l0 hl0 (hl0a.trans hb)
  case candsFresh =>
    dsimp only
    intro g' hg' c hc l hl
    obtain ⟨y, hy, hgy⟩ := mem_updateGroup hg'
    by_cases hyg : y.gid = gid
    · rw [if_pos (by simp [hyg])] at hgy
      subst hgy
      simp at hc
    · rw [if_neg (by simp [hyg])] at hgy
      subst hgy
      rcases List.mem_append.mp hl with h | h
      · exact hW.candsFresh g' hy c hc l h
      · simp only [List.mem_singleton] at h
        subst h
        have hne : g'.gid ≠ g.gid := by rw [hggid]; exact hyg
        exact fun hc2 =>
          hW.candsDistinct g' hy g hgmem c lid hc hcand hne hc2.symm
  case candsDistinct =>
    dsimp only
    intro g' hg' h' hh' c d hc hd hne
    obtain ⟨y, hy, hgy⟩ := mem_updateGroup hg'
    obtain ⟨z, hz, hgz⟩ := mem_updateGroup hh'
    by_cases hyg : y.gid = gid
    · rw [if_pos (by simp [hyg])] at hgy
      subst hgy
      simp at hc
    · rw [if_neg (by simp [hyg])] at hgy
      subst hgy
      by_cases hzg : z.gid = gid
      · rw [if_pos (by simp [hzg])] at hgz
        subst hgz
        simp at hd
      · rw [if_neg (by simp [hzg])] at hgz
        subst hgz
        exact hW.candsDistinct g' hy h' hz c d hc hd hne
  case activeEq =>
    dsimp only
    intro g' hg'
    obtain ⟨y, hy, hgy⟩ := mem_updateGroup hg'
    have hae := hW.activeEq y hy
    by_cases hyg : y.gid = gid
    · have hyeq : y = g :=
        List.inj_on_of_nodup_map hW.gidsNodup hy hgmem (by simp [hyg, hggid])
      rw [if_pos (by simp [hyg])] at hgy
      subst hgy
      have hp0 : pendInc y = 0 := by
        rw [hyeq]
        simp [pendInc, hpc]
      have hnew : List.countP (fun r => r.gid == y.gid && !r.released)
          ([{ lid := lid, key := g.key, gid := g.gid, released := false }] :
            List (LeaseRec K)) = 1 := by
        simp [hggid, hyg]
      have hco := hae.2
      rw [hp0] at hco
      simp only [unreleasedCount] at hco
      refine ⟨hae.1, ?_⟩
      have hpf : pendInc ({ y with candidate := none, pc := LoopPC.postGrant } : GroupSt K) = 1 := by
        simp [pendInc]
      simp only [unreleasedCount, hpf]
      rw [List.countP_append, hnew]
      rw [W64_eq] at hco ⊢
      omega
    · rw [if_neg (by simp [hyg])] at hgy
      subst hgy
      have hnew : List.countP (fun r => r.gid == g'.gid && !r.released)
          ([{ lid := lid, key := g.key, gid := g.gid, released := false }] :
            List (LeaseRec K)) = 0 := by
        have hb : (g.gid == g'.gid) = false := by
          simp only [beq_eq_false_iff_ne, hggid]
          exact fun hc => hyg hc.symm
        simp [hb]
      refine ⟨hae.1, ?_⟩
      simp only [unreleasedCount]
      rw [List.countP_append, hnew, Nat.add_zero]
      exact hae.2
  case leaseGidWf =>
    dsimp only
    intro l hl
    rcases List.mem_append.mp hl with h | h
    · exact updateGroup_exists_gid gid (fun x => by simp) (hW.leaseGidWf l h)
    · simp only [List.mem_singleton] at h
      subst h
      exact updateGroup_exists_gid gid (fun x => by simp) ⟨g, hgmem, rfl⟩
  case candGt =>
    dsimp only
    intro g' hg' c hc l hl hlg
    obtain ⟨y, hy, hgy⟩ := mem_updateGroup hg'
    by_cases hyg : y.gid = gid
    · rw [if_pos (by simp [hyg])] at hgy
      subst hgy
      simp at hc
    · rw [if_neg (by simp [hyg])] at hgy
      subst hgy
      rcases List.mem_append.mp hl with h | h
      · exact hW.candGt g' hy c hc l h hlg
      · simp only [List.mem_singleton] at h
        subst h
        dsimp only at hlg
        rw [hggid] at hlg
        exact absurd hlg.symm hyg
  case perGroupSorted =>
    dsimp only
    intro j
    rw [List.filter_append, List.map_append]
    by_cases hj : g.gid = j
    · have hfil : List.filter (fun l => l.gid == j)
          ([{ lid := lid, key := g.key, gid := g.gid, released := false }] :
            List (LeaseRec K)) =
          [{ lid := lid, key := g.key, gid := g.gid, released := false }] := by
        simp [hj]
      rw [hfil, List.pairwise_append]
      refine ⟨hW.perGroupSorted j, by simp, ?_⟩
      intro a ha b hb
      simp only [List.map_cons, List.map_nil, List.mem_singleton] at hb
      obtain ⟨l0, hl0, hl0a⟩ := List.mem_map.mp ha
      obtain ⟨hl0m, hl0j⟩ := List.mem_filter.mp hl0
      rw [hb, ← hl0a]
      exact hW.candGt g hgmem lid hcand l0 hl0m (by rw [hj]; simpa using hl0j)
    · have hfil : List.filter (fun l => l.gid == j)
          ([{ lid := lid, key := g.key, gid := g.gid, released := false }] :
            List (LeaseRec K)) = [] := by
        simp [hj]
      rw [hfil]
      simpa using hW.perGroupSorted j

lemma wf_grantStep {s s' : PoolSt K} {gid : Nat} (hW : WF s)
    (h : grantStep s gid = some s') : WF s' := by
  unfold grantStep at h
  cases hgf : findGroup s gid with
  | none => simp [hgf] at h
  | some g =>
    simp only [hgf] at h
    by_cases hc : g.pc = LoopPC.atSelect ∧ g.grantLive = true
    · rw [if_pos hc] at h
      cases hcand : g.candidate with
      | none =>
        rw [hcand] at h
        exact absurd h (by simp)
      | some lid =>
        rw [hcand] at h
        injection h with h
        subst h
        exact wf_grant_core hW hgf hcand hc.1
    · rw [if_neg hc] at h
      exact absurd h (by simp)

lemma wf_incrStep {s s' : PoolSt K} {gid : Nat} (hW : WF s)
    (h : incrStep s gid = some s') : WF s' := by
  unfold incrStep at h
  cases hgf : findGroup s gid with
  | none => simp [hgf] at h
  | some g =>
    simp only [hgf] at h
    by_cases hc : g.pc = LoopPC.postGrant
    · rw [if_pos hc] at h
      injection h with h
      subst h
      obtain ⟨hgmem, hggid⟩ := findGroup_mem hgf
      refine WF_mapGroups hW _ ?_ ?_ ?_
      · intro x
        by_cases hx : x.gid = gid <;> simp [hx]
      · intro x
        by_cases hx : x.gid = gid <;> simp [hx]
      · intro x hx
        have hae := hW.activeEq x hx
        by_cases hxg : x.gid = gid
        · have hxeq : x = g :=
            List.inj_on_of_nodup_map hW.gidsNodup hx hgmem (by simp [hxg, hggid])
          have hco := hae.2
          have hp1 : pendInc x = 1 := by
            rw [hxeq]
            simp [pendInc, hc]
          rw [hp1] at hco
          have hlt2 : incr64 x.counts.Active < W64 := by
            simp only [incr64]
            exact Nat.mod_lt _ W64_pos
          have hco2 : (incr64 x.counts.Active + (0 : Nat)) % W64 =
              unreleasedCount s x.gid % W64 := by
            simp only [incr64, Nat.add_zero]
            rw [W64_eq] at hco ⊢
            omega
          simpa [hxg, pendInc] using And.intro hlt2 hco2
        · simpa [hxg] using hae
    · rw [if_neg hc] at h
      exact absurd h (by simp)

lemma wf_release_core {s : PoolSt K} {lid : Nat} {l : LeaseRec K} (hW : WF s)
    (hlf : findLease s lid = some l) (hrel : l.released = false) :
    WF { updateGroup s l.gid GroupSt.decrActive with
         leases := markReleased s.leases lid } := by
  have hlf' : s.leases.find? (fun r => r.lid == lid) = some l := hlf
  have hlmem : l ∈ s.leases := List.mem_of_find?_eq_some hlf'
  have hllid : l.lid = lid := by simpa using List.find?_some hlf'
  constructor
  case gidsNodup =>
    have he := updateGroup_map_gid s l.gid GroupSt.decrActive (fun x => by simp)
    exact he ▸ hW.gidsNodup
  case gidsLt =>
    dsimp only
    intro g' hg'
    obtain ⟨y, hy, hgy⟩ := mem_updateGroup hg'
    have := hW.gidsLt y hy
    by_cases hyg : y.gid = l.gid
    · rw [if_pos (by simp [hyg])] at hgy
      subst hgy
      simpa using this
    · rw [if_neg (by simp [hyg])] at hgy
      subst hgy
      exact this
  case regWf =>
    intro p hp
    exact updateGroup_exists_gid l.gid (fun x => by simp) (hW.regWf p hp)
  case regGidsNodup => exact hW.regGidsNodup
  case leaseIdBounds =>
    dsimp only
    intro x hx
    obtain ⟨y, hy, hxy⟩ := mem_markReleased hx
    have := hW.leaseIdBounds y hy
    rcases hxy with rfl | rfl
    · exact this
    · simpa using this
  case candBounds =>
    dsimp only
    intro g' hg' c hc
    obtain ⟨y, hy, hgy⟩ := mem_updateGroup hg'
    by_cases hyg : y.gid = l.gid
    · rw [if_pos (by simp [hyg])] at hgy
      subst hgy
      simp only [decrActive_candidate] at hc
      exact hW.candBounds y hy c hc
    · rw [if_neg (by simp [hyg])] at hgy
      subst hgy
      exact hW.candBounds g' hy c hc
  case lidsNodup =>
    dsimp only
    rw [markReleased_map_lid]
    exact hW.lidsNodup
  case candsFresh =>
    dsimp only
    intro g' hg' c hc x hx
    obtain ⟨y, hy, hgy⟩ := mem_updateGroup hg'
    obtain ⟨y', hy', hxy'⟩ := mem_markReleased hx
    have hfr : ∀ z ∈ s.groups, ∀ c0, z.candidate = some c0 → y'.lid ≠ c0 :=
      fun z hz c0 hc0 => hW.candsFresh z hz c0 hc0 y' hy'
    by_cases hyg : y.gid = l.gid
    · rw [if_pos (by simp [hyg])] at hgy
      subst hgy
      simp only [decrActive_candidate] at hc
      rcases hxy' with rfl | rfl
      · exact hfr y hy c hc
      · simpa using hfr y hy c hc
    · rw [if_neg (by simp [hyg])] at hgy
      subst hgy
      rcases hxy' with rfl | rfl
      · exact hfr g' hy c hc
      · simpa using hfr g' hy c hc
  case candsDistinct =>
    dsimp only
    intro g' hg' h' hh' c d hc hd hne
    obtain ⟨y, hy, hgy⟩ := mem_updateGroup hg'
    obtain ⟨z, hz, hgz⟩ := mem_updateGroup hh'
    have hcy : ∀ w : GroupSt K,
        (if w.gid == l.gid then w.decrActive else w).candidate = w.candidate := by
      intro w
      by_cases hw : w.gid = l.gid <;> simp [hw]
    have hgy2 : ∀ w : GroupSt K,
        (if w.gid == l.gid then w.decrActive else w).gid = w.gid := by
      intro w
      by_cases hw : w.gid = l.gid <;> simp [hw]
    rw [hgy] at hc hne
    rw [hgz] at hd hne
    rw [hcy] at hc
    rw [hcy] at hd
    rw [hgy2, hgy2] at hne
    exact hW.candsDistinct y hy z hz c d hc hd hne
  case activeEq =>
    dsimp only
    intro g' hg'
    obtain ⟨y, hy, hgy⟩ := mem_updateGroup hg'
    have hae := hW.activeEq y hy
    by_cases hyg : y.gid = l.gid
    · rw [if_pos (by simp [hyg])] at hgy
      subst hgy
      have hpos : 1 ≤ List.countP (fun r => r.gid == l.gid && !r.released) s.leases := by
        rw [Nat.succ_le_iff, List.countP_pos]
        exact ⟨l, hlmem, by simp [hrel]⟩
      have hcnt := countP_markReleased_self hlf' hrel
      have hlt : y.counts.Active < W64 := hae.1
      have hp1 : pendInc y ≤ 1 := pendInc_le_one y
      have hco : (y.counts.Active + pendInc y) % W64 =
          List.countP (fun r => r.gid == l.gid && !r.released) s.leases % W64 := by
        simpa [unreleasedCount, hyg] using hae.2
      simp only [unreleasedCount, decrActive_counts, decrActive_gid, pendInc_decrActive]
      rw [hyg]
      constructor
      · unfold decr64
        rw [W64_eq] at hlt ⊢
        split <;> omega
      · unfold decr64
        rw [W64_eq] at hlt hco ⊢
        split <;> omega
    · rw [if_neg (by simp [hyg])] at hgy
      subst hgy
      refine ⟨hae.1, ?_⟩
      simp only [unreleasedCount]
      rw [countP_markReleased_other hlf' hyg]
      simpa [unreleasedCount] using hae.2
  case leaseGidWf =>
    dsimp only
    intro x hx
    obtain ⟨y', hy', hxy'⟩ := mem_markReleased hx
    have hex := hW.leaseGidWf y' hy'
    rcases hxy' with rfl | rfl
    · exact updateGroup_exists_gid l.gid (fun w => by simp) hex
    · simpa using updateGroup_exists_gid l.gid (fun w => by simp) hex
  case candGt =>
    dsimp only
    intro g' hg' c hc x hx hxg
    obtain ⟨y, hy, hgy⟩ := mem_updateGroup hg'
    obtain ⟨y', hy', hxy'⟩ := mem_markReleased hx
    have hgt : ∀ z ∈ s.groups, z.candidate = some c → y'.gid = z.gid → y'.lid < c :=
      fun z hz hc0 hgz => hW.candGt z hz c hc0 y' hy' hgz
    by_cases hyg : y.gid = l.gid
    · rw [if_pos (by simp [hyg])] at hgy
      subst hgy
      simp only [decrActive_candidate] at hc
      simp only [decrActive_gid] at hxg
      rcases hxy' with rfl | rfl
      · exact hgt y hy hc hxg
      · simpa using hgt y hy hc (by simpa using hxg)
    · rw [if_neg (by simp [hyg])] at hgy
      subst hgy
      rcases hxy' with rfl | rfl
      · exact hgt g' hy hc hxg
      · simpa using hgt g' hy hc (by simpa using hxg)
  case perGroupSorted =>
    dsimp only
    intro j
    rw [markReleased_filter_map_lid]
    exact hW.perGroupSorted j

lemma wf_releaseStep {s s' : PoolSt K} {lid : Nat} (hW : WF s)
    (h : releaseStep s lid = some s') : WF s' := by
  unfold releaseStep at h
  cases hlf : findLease s lid with
  | none => simp [hlf] at h
  | some l =>
    simp only [hlf] at h
    by_cases hrel : l.released = true
    · rw [if_pos hrel] at h
      injection h with h
      subst h
      exact hW
    · rw [if_neg hrel] at h
      injection h with h
      subst h
      exact wf_release_core hW hlf (by simpa using hrel)

lemma wf_stepE {s s' : PoolSt K} {e : Event K} (hW : WF s)
    (h : stepE s e = some s') : WF s' := by
  cases e with
  | set k t =>
    simp only [stepE] at h
    injection h with h
    subst h
    exact wf_Set hW k t
  | getE k =>
    simp only [stepE] at h
    injection h with h
    subst h
    exact hW
  | stop =>
    simp only [stepE] at h
    injection h with h
    subst h
    exact wf_Stop hW
  | reeval gid => exact wf_reevalStep hW h
  | grantRecv gid => exact wf_grantStep hW h
  | incr gid => exact wf_incrStep hW h
  | notifyRecv gid => exact wf_notifyStep hW h
  | ctxDone gid => exact wf_doneStep hW h
  | release lid => exact wf_releaseStep hW h

lemma wf_stepD {s : PoolSt K} (hW : WF s) (e : Event K) : WF (stepD s e) := by
  unfold stepD
  cases h : stepE s e with
  | none => exact hW
  | some s2 => exact wf_stepE hW h

lemma wf_runFrom {s : PoolSt K} (hW : WF s) (evs : List (Event K)) :
    WF (runFrom s evs) := by
  induction evs generalizing s with
  | nil => exact hW
  | cons e rest ih => exact ih (wf_stepD hW e)

lemma wf_runPool (evs : List (Event K)) : WF (runPool evs) :=
  wf_runFrom wf_initPool evs

/-! Observation lemmas for Get and Set. -/

lemma Get_eq (s : PoolSt K) (k : K) :
    s.Get k =
      match lookupKey s.registry k with
      | some gid =>
        match findGroup s gid with
        | some g => g.counts
        | none => { Target := 0, Active := 0 }
      | none => { Target := 0, Active := 0 } := rfl

lemma Get_absent {s : PoolSt K} {k : K} (h : lookupKey s.registry k = none) :
    s.Get k = { Target := 0, Active := 0 } := by
  rw [Get_eq]
  simp only [h]

lemma Get_present {s : PoolSt K} {k : K} {gid : Nat} (hW : WF s)
    (h : lookupKey s.registry k = some gid) :
    ∃ g, findGroup s gid = some g ∧ s.Get k = g.counts := by
  have hex : ∃ g ∈ s.groups, g.gid = gid := hW.regWf _ (mem_of_lookupKey h)
  obtain ⟨g, hg, hgid⟩ := findGroup_isSome hex
  refine ⟨g, hg, ?_⟩
  rw [Get_eq]
  simp only [h, hg]

lemma Get_Set_self_del {s : PoolSt K} (k : K) {t : Nat} (ht : t < 1) :
    (s.Set k t).Get k = { Target := 0, Active := 0 } := by
  unfold PoolSt.Set
  rw [if_pos ht]
  unfold PoolSt.del
  cases hl : lookupKey s.registry k with
  | none => exact Get_absent hl
  | some gid =>
    simp only
    exact Get_absent (lookupKey_removeKey_self s.registry k)

lemma find?_gid_append_new {s : PoolSt K} (hW : WF s) (g0 : GroupSt K)
    (hg0 : g0.gid = s.nextGid) :
    (s.groups ++ [g0]).find? (fun g => g.gid == s.nextGid) = some g0 := by
  rw [List.find?_append]
  have h1 : s.groups.find? (fun g => g.gid == s.nextGid) = none := by
    rw [List.find?_eq_none]
    intro x hx
    have := hW.gidsLt x hx
    simp
    omega
  rw [h1]
  simp [hg0]

lemma Get_Set_self_new {s : PoolSt K} (hW : WF s) {k : K} {t : Nat}
    (ht : ¬ t < 1) (hl : lookupKey s.registry k = none) :
    (s.Set k t).Get k = { Target := t, Active := 0 } := by
  unfold PoolSt.Set
  rw [if_neg ht]
  simp only [hl]
  have hlk : lookupKey (s.start k t).registry k = some s.nextGid := by
    show lookupKey ((k, s.nextGid) :: s.registry) k = some s.nextGid
    rw [lookupKey_cons, if_pos rfl]
  have hfg : findGroup (s.start k t) s.nextGid =
      some { gid := s.nextGid, key := k,
             counts := { Target := t, Active := 0 },
             cancelled := s.stopped, notified := false,
             pc := LoopPC.needEval, grantLive := false, candidate := none } :=
    find?_gid_append_new hW _ rfl
  rw [Get_eq]
  simp only [hlk, hfg]

lemma Get_Set_self_upd {s : PoolSt K} (hW : WF s) {k : K} {t : Nat} {gid : Nat}
    (ht : ¬ t < 1) (hl : lookupKey s.registry k = some gid) :
    (s.Set k t).Get k = { Target := t, Active := (s.Get k).Active } := by
  obtain ⟨g, hfg, hGet⟩ := Get_present hW hl
  unfold PoolSt.Set
  rw [if_neg ht]
  simp only [hl]
  have hreg : lookupKey (updateGroup s gid (fun g => g.SetTarget t)).registry k =
      some gid := by
    rw [updateGroup_registry]
    exact hl
  have hfg2 : findGroup (updateGroup s gid (fun g => g.SetTarget t)) gid =
      some (g.SetTarget t) := by
    rw [findGroup_updateGroup s gid gid _ (fun x => by simp), if_pos rfl, hfg]
    rfl
  rw [Get_eq]
  simp only [hreg, hfg2, setTarget_counts, hGet]

lemma Get_Set_other {s : PoolSt K} (hW : WF s) {k k' : K} (t : Nat)
    (hne : k ≠ k') : (s.Set k' t).Get k = s.Get k := by
  unfold PoolSt.Set
  by_cases ht : t < 1
  · rw [if_pos ht]
    unfold PoolSt.del
    cases hl' : lookupKey s.registry k' with
    | none => simp only
    | some gid' =>
      simp only
      rw [Get_eq]
      have hreg : lookupKey ({ updateGroup s gid'
            (fun g => { g with cancelled := true }) with
            registry := removeKey s.registry k' }).registry k =
          lookupKey s.registry k := by
        show lookupKey (removeKey s.registry k') k = _
        exact lookupKey_removeKey_ne s.registry hne
      rw [hreg, Get_eq (s := s)]
      cases hl : lookupKey s.registry k with
      | none => simp only
      | some gid =>
        simp only
        have hgg : gid ≠ gid' := lookupKey_distinct hW.regGidsNodup hne hl hl'
        have hfg : findGroup ({ updateGroup s gid'
              (fun g => { g with cancelled := true }) with
              registry := removeKey s.registry k' }) gid = findGroup s gid := by
          show findGroup (updateGroup s gid'
            (fun g => { g with cancelled := true })) gid = findGroup s gid
          rw [findGroup_updateGroup s gid' gid
            (fun g => { g with cancelled := true }) (fun x => rfl), if_neg hgg]
        rw [hfg]
  · rw [if_neg ht]
    cases hl' : lookupKey s.registry k' with
    | none =>
      simp only
      rw [Get_eq, Get_eq (s := s)]
      have hreg : lookupKey (s.start k' t).registry k =
          lookupKey s.registry k := by
        show lookupKey ((k', s.nextGid) :: s.registry) k = _
        rw [lookupKey_cons, if_neg (fun hc : k' = k => hne hc.symm)]
      rw [hreg]
      cases hl : lookupKey s.registry k with
      | none => simp only
      | some gid =>
        simp only
        obtain ⟨g, hg, hgid⟩ :=
          findGroup_isSome (hW.regWf _ (mem_of_lookupKey hl))
        have hfg : findGroup (s.start k' t) gid = some g := by
          show ((s.groups ++ [_]).find? (fun x => x.gid == gid) :
            Option (GroupSt K)) = some g
          rw [List.find?_append]
          rw [show s.groups.find? (fun x => x.gid == gid) = some g from hg]
          rfl
        rw [hfg, hg]
    | some gid' =>
      simp only
      rw [Get_eq, Get_eq (s := s), updateGroup_registry]
      cases hl : lookupKey s.registry k with
      | none => simp only
      | some gid =>
        simp only
        have hgg : gid ≠ gid' := lookupKey_distinct hW.regGidsNodup hne hl hl'
        rw [findGroup_updateGroup s gid' gid _ (fun x => by simp), if_neg hgg]

/-! A run consisting only of Set calls keeps every Active count at 0. -/

lemma activeZero_Set {s : PoolSt K} (hA : ∀ g ∈ s.groups, g.counts.Active = 0)
    (k : K) (t : Nat) : ∀ g ∈ (s.Set k t).groups, g.counts.Active = 0 := by
  unfold PoolSt.Set
  by_cases ht : t < 1
  · rw [if_pos ht]
    unfold PoolSt.del
    cases hl : lookupKey s.registry k with
    | none => exact hA
    | some gid =>
      simp only
      intro g hg
      obtain ⟨y, hy, hgy⟩ := mem_updateGroup hg
      by_cases hyg : y.gid = gid
      · rw [if_pos (by simp [hyg])] at hgy
        subst hgy
        simpa using hA y hy
      · rw [if_neg (by simp [hyg])] at hgy
        subst hgy
        exact hA g hy
  · rw [if_neg ht]
    cases hl : lookupKey s.registry k with
    | none =>
      simp only
      intro g hg
      rcases List.mem_append.mp hg with h | h
      · exact hA g h
      · simp only [List.mem_singleton] at h
        subst h
        rfl
    | some gid =>
      simp only
      intro g hg
      obtain ⟨y, hy, hgy⟩ := mem_updateGroup hg
      by_cases hyg : y.gid = gid
      · rw [if_pos (by simp [hyg])] at hgy
        subst hgy
        simpa using hA y hy
      · rw [if_neg (by simp [hyg])] at hgy
        subst hgy
        exact hA g hy

lemma wf_foldlSet {s : PoolSt K}
    (h : WF s ∧ ∀ g ∈ s.groups, g.counts.Active = 0) (l : List (K × Nat)) :
    WF (l.foldl (fun s p => s.Set p.1 p.2) s) ∧
      ∀ g ∈ (l.foldl (fun s p => s.Set p.1 p.2) s).groups,
        g.counts.Active = 0 := by
  induction l generalizing s with
  | nil => exact h
  | cons p rest ih => exact ih ⟨wf_Set h.1 p.1 p.2, activeZero_Set h.2 p.1 p.2⟩

lemma wf_applySets (l : List (K × Nat)) :
    WF (applySets (K := K) l) ∧
      ∀ g ∈ (applySets (K := K) l).groups, g.counts.Active = 0 :=
  wf_foldlSet ⟨wf_initPool, by simp [initPool]⟩ l

lemma lastSet_append (l : List (K × Nat)) (p : K × Nat) (k : K) :
    lastSet (l ++ [p]) k = if p.1 = k then some p.2 else lastSet l k := by
  unfold lastSet
  rw [List.filter_append, List.map_append]
  by_cases hp : p.1 = k
  · simp [hp, List.getLast?_concat]
  · simp [hp]

lemma applySets_append (l : List (K × Nat)) (p : K × Nat) :
    applySets (K := K) (l ++ [p]) = (applySets l).Set p.1 p.2 := by
  unfold applySets
  rw [List.foldl_append]
  rfl

lemma Get_applySets (l : List (K × Nat)) (k : K) :
    (applySets l).Get k =
      match lastSet l k with
      | some t =>
        if 1 ≤ t then { Target := t, Active := 0 }
        else { Target := 0, Active := 0 }
      | none => { Target := 0, Active := 0 } := by
  induction l using List.reverseRecOn with
  | nil => rfl
  | append_singleton l p ih =>
    rw [applySets_append, lastSet_append]
    obtain ⟨hW, hA⟩ := wf_applySets (K := K) l
    by_cases hp : p.1 = k
    · subst hp
      rw [if_pos rfl]
      by_cases ht : p.2 < 1
      · rw [Get_Set_self_del _ ht]
        simp [show ¬(1 ≤ p.2) from by omega]
      · cases hl : lookupKey (applySets l).registry p.1 with
        | none =>
          rw [Get_Set_self_new hW ht hl]
          simp [show 1 ≤ p.2 from by omega]
        | some gid =>
          rw [Get_Set_self_upd hW ht hl]
          obtain ⟨g, hfg, hGet⟩ := Get_present hW hl
          have hz : (PoolSt.Get (applySets l) p.1).Active = 0 := by
            rw [hGet]
            exact hA g (findGroup_mem hfg).1
          rw [hz]
          simp [show 1 ≤ p.2 from by omega]
    · rw [if_neg hp, Get_Set_other hW p.2 (fun hc => hp hc.symm), ih]

/-! Bridging lemmas used to compute findGroup across record updates. -/

lemma findGroup_setLeaseIDs (s : PoolSt K) (v gid : Nat) :
    findGroup { s with leaseIDs := v } gid = findGroup s gid := rfl

lemma findGroup_setLeases (s : PoolSt K) (L : List (LeaseRec K)) (gid : Nat) :
    findGroup { s with leases := L } gid = findGroup s gid := rfl

lemma findGroup_setReg (s : PoolSt K) (R : List (K × Nat)) (gid : Nat) :
    findGroup { s with registry := R } gid = findGroup s gid := rfl

lemma find?_gid_map (L : List (GroupSt K)) (f : GroupSt K → GroupSt K)
    (hf : ∀ x, (f x).gid = x.gid) (j : Nat) :
    (L.map f).find? (fun g => g.gid == j) =
      (L.find? (fun g => g.gid == j)).map f := by
  induction L with
  | nil => rfl
  | cons g rest ih =>
    by_cases hg : g.gid = j
    · rw [List.map_cons, List.find?_cons_of_pos _ (by simp [hf, hg]),
        List.find?_cons_of_pos _ (by simp [hg])]
      rfl
    · rw [List.map_cons, List.find?_cons_of_neg _ (by simp [hf, hg]),
        List.find?_cons_of_neg _ (by simp [hg]), ih]

lemma findGroup_Stop (s : PoolSt K) (gid : Nat) :
    findGroup s.Stop gid =
      (findGroup s gid).map (fun g => { g with cancelled := true }) :=
  find?_gid_map s.groups (fun g => { g with cancelled := true })
    (fun _ => rfl) gid

lemma findGroup_start_of_found {s : PoolSt K} {gid : Nat} {g : GroupSt K}
    (k : K) (t : Nat) (hg : findGroup s gid = some g) :
    findGroup (s.start k t) gid = some g := by
  show (s.groups ++ [_]).find? (fun x => x.gid == gid) = some g
  rw [List.find?_append, show s.groups.find? (fun x => x.gid == gid) = some g
    from hg]
  rfl

/-- Claim C1: for every key and every sequence of Set(key, t) calls,
Get(key).Target equals the last t that was set when that t is at least 1,
Get(key) returns the zero Counts after a Set(key, t) with t below 1 and
when no Set has ever been made for the key; a group created by Set starts
with Active 0 and the given Target, and a Set on an existing group
updates only its Target, leaving Active unchanged. -/
theorem c1_set_get_semantics :
    (∀ (l : List (Nat × Nat)) (k : Nat),
      (applySets l).Get k =
        match lastSet l k with
        | some t =>
          if 1 ≤ t then { Target := t, Active := 0 }
          else { Target := 0, Active := 0 }
        | none => { Target := 0, Active := 0 })
    ∧ (∀ (evs : List (Event Nat)) (k t : Nat), 1 ≤ t →
        lookupKey (runPool evs).registry k = none →
        ((runPool evs).Set k t).Get k = { Target := t, Active := 0 })
    ∧ (∀ (evs : List (Event Nat)) (k t gid : Nat), 1 ≤ t →
        lookupKey (runPool evs).registry k = some gid →
        ((runPool evs).Set k t).Get k =
          { Target := t, Active := ((runPool evs).Get k).Active })
    ∧ (∀ (evs : List (Event Nat)) (k t : Nat), t < 1 →
        ((runPool evs).Set k t).Get k = { Target := 0, Active := 0 }) := by
  refine ⟨Get_applySets, ?_, ?_, ?_⟩
  · intro evs k t ht hl
    exact Get_Set_self_new (wf_runPool evs) (by omega) hl
  · intro evs k t gid ht hl
    exact Get_Set_self_upd (wf_runPool evs) (by omega) hl
  · intro evs k t ht
    exact Get_Set_self_del k ht

/-- Witness for C1 at concrete inputs. -/
theorem c1_witness :
    (applySets [((0 : Nat), 2), (0, 0), (0, 3)]).Get 0 =
      { Target := 3, Active := 0 }
    ∧ ((runPool ([] : List (Event Nat))).Set 0 5).Get 0 =
      { Target := 5, Active := 0 }
    ∧ ((runPool [Event.set (0 : Nat) 2]).Set 0 7).Get 0 =
      { Target := 7, Active := ((runPool [Event.set (0 : Nat) 2]).Get 0).Active }
    ∧ ((runPool [Event.set (0 : Nat) 2]).Set 0 0).Get 0 =
      { Target := 0, Active := 0 } := by
  refine ⟨?_, ?_, ?_, ?_⟩
  · exact (c1_set_get_semantics.1 [((0 : Nat), 2), (0, 0), (0, 3)] 0).trans
      (by decide)
  · exact c1_set_get_semantics.2.1 [] 0 5 (by decide) (by decide)
  · exact c1_set_get_semantics.2.2.1 [Event.set 0 2] 0 7 0 (by decide) (by decide)
  · exact c1_set_get_semantics.2.2.2 [Event.set 0 2] 0 0 (by decide)

/-- Claim C7: Get never blocks (its step is enabled in every state), never
creates a group and changes nothing (its state effect is the identity),
and on an absent key it returns the zero Counts. -/
theorem c7_get_pure :
    ∀ (s : PoolSt Nat) (k : Nat),
      stepE s (Event.getE k) = some s ∧
      (lookupKey s.registry k = none →
        s.Get k = { Target := 0, Active := 0 }) := by
  intro s k
  exact ⟨rfl, fun h => Get_absent h⟩

/-- Witness for C7 at a concrete state and key. -/
theorem c7_witness :
    stepE (runPool [Event.set (0 : Nat) 2]) (Event.getE 5) =
      some (runPool [Event.set (0 : Nat) 2]) ∧
    (runPool [Event.set (0 : Nat) 2]).Get 5 = { Target := 0, Active := 0 } :=
  ⟨(c7_get_pure _ 5).1, (c7_get_pure _ 5).2 (by decide)⟩

/-- Claim C9: a NOPLease returns 0 from ID, its key from Key, and its
Release has no effect on any pool state no matter how often it runs. -/
theorem c9_noplease :
    ∀ (k : Nat) (s : PoolSt Nat) (n : Nat),
      (NOPLease k).ID = 0 ∧ (NOPLease k).Key = k ∧
      (fun st => (NOPLease k).Release st)^[n] s = s := by
  intro k s n
  refine ⟨rfl, rfl, ?_⟩
  induction n generalizing s with
  | zero => rfl
  | succ m ih => rw [Function.iterate_succ_apply]; exact ih _

/-- Claim C10: the id counter of a fresh pool starts at 0, every lease
ever granted through the pool has id at least 1 and so never collides
with the 0 returned by NOPLease.ID, and every allocated candidate id is
at least 1. -/
theorem c10_granted_ids_positive :
    (initPool : PoolSt Nat).leaseIDs = 0
    ∧ (∀ (evs : List (Event Nat)) (l : LeaseRec Nat) (k : Nat),
        l ∈ (runPool evs).leases → 1 ≤ l.lid ∧ (NOPLease k).ID < l.lid)
    ∧ (∀ (evs : List (Event Nat)) (g : GroupSt Nat) (c : Nat),
        g ∈ (runPool evs).groups → g.candidate = some c → 1 ≤ c) := by
  refine ⟨rfl, ?_, ?_⟩
  · intro evs l k hl
    have hb := (wf_runPool evs).leaseIdBounds l hl
    exact ⟨hb.1, by show 0 < l.lid; omega⟩
  · intro evs g c hg hc
    exact ((wf_runPool evs).candBounds g hg c hc).1

/-- Witness for C10 on a pool that has granted one lease. -/
theorem c10_witness :
    1 ≤ (1 : Nat) ∧ (NOPLease (7 : Nat)).ID < 1 :=
  c10_granted_ids_positive.2.1
    [Event.set 0 1, Event.reeval 0, Event.grantRecv 0]
    { lid := 1, key := 0, gid := 0, released := false } 7 (by decide)

/-- Counterexample to claim C3 as stated: in the reachable state after
Set(0, 1), one convergence check and the grant handoff - but before the
incrActive of the group has run - the receiver owns an unreleased lease
while Active is still 0, and the first Release of that lease does not
decrement Active by exactly 1: the uint64 decrement Active-- wraps it
from 0 to 2 ^ 64 - 1 (workpool.go line 204, racing line 242). -/
theorem c3_counterexample :
    ((findGroup (runPool [Event.set (0 : Nat) 1, Event.reeval 0,
        Event.grantRecv 0]) 0).map (fun g => g.counts.Active) = some 0)
    ∧ ((findLease (runPool [Event.set (0 : Nat) 1, Event.reeval 0,
        Event.grantRecv 0]) 1).map (fun l => l.released) = some false)
    ∧ ((releaseStep (runPool [Event.set (0 : Nat) 1, Event.reeval 0,
        Event.grantRecv 0]) 1).map (fun s => (findGroup s 0).map
          (fun g => g.counts.Active)) = some (some (W64 - 1))) := by decide

/-- Claim C3 as amended: the first Release of a granted lease applies
the uint64 decrement Active-- to the owning group (the group is still
found through the lease even if it was removed from the registry): the
new Active is decr64 of the old one, and this is an exact decrement by 1
from Active at least 1 whenever the owning goroutine has no pending
increment and fewer than 2 ^ 64 leases of the group are unreleased - in
the window between the grant handoff and the incrActive of the group a
first Release instead finds Active = 0 and wraps, as the counterexample
shows.  Every further Release of the same lease is a no-op on the whole
state. -/
theorem c3_release_once_uint64 :
    ∀ (evs : List (Event Nat)) (lid : Nat) (l : LeaseRec Nat),
      findLease (runPool evs) lid = some l →
      (l.released = false →
        ∃ s' g g', releaseStep (runPool evs) lid = some s' ∧
          findGroup (runPool evs) l.gid = some g ∧
          findGroup s' l.gid = some g' ∧
          g'.counts.Active = decr64 g.counts.Active ∧
          (g.pc ≠ LoopPC.postGrant →
            unreleasedCount (runPool evs) l.gid < W64 →
            1 ≤ g.counts.Active ∧
            g'.counts.Active = g.counts.Active - 1) ∧
          releaseStep s' lid = some s') ∧
      (l.released = true → releaseStep (runPool evs) lid = some (runPool evs)) := by
  intro evs lid l h
  have hW := wf_runPool evs
  have hl' : (runPool evs).leases.find? (fun r => r.lid == lid) = some l := h
  have hlmem : l ∈ (runPool evs).leases := List.mem_of_find?_eq_some hl'
  constructor
  · intro hrel
    obtain ⟨g, hg, hgid⟩ := findGroup_isSome (hW.leaseGidWf l hlmem)
    have hgmem := (findGroup_mem hg).1
    have hexact : g.pc ≠ LoopPC.postGrant →
        unreleasedCount (runPool evs) l.gid < W64 →
        1 ≤ g.counts.Active ∧
        g.decrActive.counts.Active = g.counts.Active - 1 := by
      intro hpc hcnt
      have hae := hW.activeEq g hgmem
      have hp0 : pendInc g = 0 := by
        simp [pendInc, hpc]
      have hucnt : 0 < unreleasedCount (runPool evs) l.gid := by
        have hcp : 0 < (runPool evs).leases.countP
            (fun r => r.gid == l.gid && !r.released) :=
          List.countP_pos.mpr ⟨l, hlmem, by simp [hrel]⟩
        exact hcp
      have hco := hae.2
      rw [hp0, hgid] at hco
      have hlt := hae.1
      have hpos : 1 ≤ g.counts.Active := by
        rw [W64_eq] at hco hlt hcnt
        omega
      refine ⟨hpos, ?_⟩
      rw [decrActive_counts]
      exact decr64_of_pos hpos
    refine ⟨{ updateGroup (runPool evs) l.gid GroupSt.decrActive with
        leases := markReleased (runPool evs).leases lid },
      g, g.decrActive, ?_, hg, ?_, by rw [decrActive_counts], hexact, ?_⟩
    · unfold releaseStep
      simp only [h]
      rw [if_neg (by simp [hrel])]
    · show findGroup (updateGroup (runPool evs) l.gid GroupSt.decrActive)
        l.gid = some g.decrActive
      rw [findGroup_updateGroup _ _ _ GroupSt.decrActive (fun x => by simp),
        if_pos rfl, hg]
      rfl
    · unfold releaseStep
      have hfl2 : findLease { updateGroup (runPool evs) l.gid
          GroupSt.decrActive with
          leases := markReleased (runPool evs).leases lid } lid =
          some { l with released := true } := find?_markReleased hl'
      simp only [hfl2]
      simp
  · intro hrel
    unfold releaseStep
    simp only [h]
    rw [if_pos hrel]

/-- Witness for the amended C3: a granted lease in a concrete pool whose
group has completed its increment is released once with Active going
from 1 to decr64 1 = 0, the exactness guard applies (no pending
increment, one unreleased lease), and a second release is a no-op. -/
theorem c3_witness :
    ∃ s' g g',
      releaseStep (runPool [Event.set (0 : Nat) 1, Event.reeval 0,
        Event.grantRecv 0, Event.incr 0]) 1 = some s' ∧
      findGroup (runPool [Event.set (0 : Nat) 1, Event.reeval 0,
        Event.grantRecv 0, Event.incr 0]) 0 = some g ∧
      findGroup s' 0 = some g' ∧
      g'.counts.Active = decr64 g.counts.Active ∧
      (g.pc ≠ LoopPC.postGrant →
        unreleasedCount (runPool [Event.set (0 : Nat) 1, Event.reeval 0,
          Event.grantRecv 0, Event.incr 0]) 0 < W64 →
        1 ≤ g.counts.Active ∧
        g'.counts.Active = g.counts.Active - 1) ∧
      releaseStep s' 1 = some s' :=
  (c3_release_once_uint64
    [Event.set 0 1, Event.reeval 0, Event.grantRecv 0, Event.incr 0]
    1 { lid := 1, key := 0, gid := 0, released := false } (by decide)).1 rfl

/-- Claim C8: the wake signal is coalescing and non-blocking: a notify on
an already-notified group is dropped without effect, notify always leaves
the group notified, and the Get, Set, Stop and Release actions are
enabled in every state in which their receiver exists (they never
block). -/
theorem c8_wake_coalescing_nonblocking :
    (∀ g : GroupSt Nat, g.notified = true → g.notify = g)
    ∧ (∀ g : GroupSt Nat, g.notify.notified = true)
    ∧ (∀ (s : PoolSt Nat) (k t : Nat), (stepE s (Event.set k t)).isSome = true)
    ∧ (∀ s : PoolSt Nat, (stepE s Event.stop).isSome = true)
    ∧ (∀ (s : PoolSt Nat) (k : Nat), (stepE s (Event.getE k)).isSome = true)
    ∧ (∀ (s : PoolSt Nat) (lid : Nat) (l : LeaseRec Nat),
        findLease s lid = some l →
        (stepE s (Event.release lid)).isSome = true) := by
  refine ⟨?_, ?_, ?_, ?_, ?_, ?_⟩
  · intro g h
    unfold GroupSt.notify
    rw [if_pos h]
  · intro g
    exact notify_notified g
  · intro s k t
    rfl
  · intro s
    rfl
  · intro s k
    rfl
  · intro s lid l h
    show (releaseStep s lid).isSome = true
    unfold releaseStep
    simp only [h]
    by_cases hr : l.released = true
    · rw [if_pos hr]
      rfl
    · rw [if_neg hr]
      rfl

/-- Witness for C8: a redundant notify on a concrete notified group is
dropped, and a Release step on a concrete granted lease is enabled. -/
theorem c8_witness :
    ({ gid := 0, key := (0 : Nat), counts := { Target := 1, Active := 0 },
       cancelled := false, notified := true, pc := LoopPC.atSelect,
       grantLive := false, candidate := none } : GroupSt Nat).notify =
      { gid := 0, key := 0, counts := { Target := 1, Active := 0 },
        cancelled := false, notified := true, pc := LoopPC.atSelect,
        grantLive := false, candidate := none } ∧
    (stepE (runPool [Event.set (0 : Nat) 1, Event.reeval 0, Event.grantRecv 0])
      (Event.release 1)).isSome = true := by
  constructor
  · exact c8_wake_coalescing_nonblocking.1 _ rfl
  · exact c8_wake_coalescing_nonblocking.2.2.2.2.2 _ 1
      { lid := 1, key := 0, gid := 0, released := false } (by decide)

/-- Counterexample to claim C2 as stated, both halves.  (a) In the
reachable state after Set(0, 2), one convergence check, one grant with
its increment, another convergence check and Set(0, 1), the group has
Active = 1 = Target with its offer still live, the grant step is enabled
even though Active < Target is false, and taking it (with its increment)
leaves Active = 2 above Target = 1: the race between the loop-local
grant channel alias and a concurrent SetTarget in group.run
(workpool.go lines 222-243).  (b) Active is decremented below 0: after
Set(0, 1), one check and the grant handoff, the receiver holds an
unreleased lease while Active is still 0 (the incrActive of the group
has not run yet), and releasing in that window wraps the uint64
decrement to 2 ^ 64 - 1; the pending increment then wraps it back
to 0. -/
theorem c2_counterexample :
    ((stepE (runPool [Event.set (0 : Nat) 2, Event.reeval 0, Event.grantRecv 0,
        Event.incr 0, Event.reeval 0, Event.set 0 1])
        (Event.grantRecv 0)).isSome = true
      ∧ ((findGroup (runPool [Event.set (0 : Nat) 2, Event.reeval 0,
          Event.grantRecv 0, Event.incr 0, Event.reeval 0, Event.set 0 1]) 0).map
          (fun g => decide (g.counts.Active < g.counts.Target))) = some false
      ∧ (findGroup (runPool [Event.set (0 : Nat) 2, Event.reeval 0,
          Event.grantRecv 0, Event.incr 0, Event.reeval 0, Event.set 0 1,
          Event.grantRecv 0, Event.incr 0]) 0).map
          (fun g => (g.counts.Target, g.counts.Active)) = some (1, 2))
    ∧ ((findGroup (runPool [Event.set (0 : Nat) 1, Event.reeval 0,
          Event.grantRecv 0]) 0).map (fun g => g.counts.Active) = some 0
      ∧ (findLease (runPool [Event.set (0 : Nat) 1, Event.reeval 0,
          Event.grantRecv 0]) 1).map (fun l => l.released) = some false
      ∧ (releaseStep (runPool [Event.set (0 : Nat) 1, Event.reeval 0,
          Event.grantRecv 0]) 1).map (fun s => (findGroup s 0).map
            (fun g => g.counts.Active)) = some (some (W64 - 1))
      ∧ (findGroup (runPool [Event.set (0 : Nat) 1, Event.reeval 0,
          Event.grantRecv 0, Event.release 1, Event.incr 0]) 0).map
          (fun g => g.counts.Active) = some 0) := by decide

/-- Claim C2 as amended: in every reachable state, for every existing
group, Active is a uint64 value below 2 ^ 64 and Active plus the pending
increment of the goroutine of the group (1 exactly while it sits between
the grant handoff and its incrActive call) is congruent mod 2 ^ 64 to
the number of granted and unreleased leases of the group; whenever the
owning group has no pending increment and fewer than 2 ^ 64 of its
leases are unreleased, a release of an unreleased lease finds Active at
least 1 and the uint64 decrement is an exact decrement by 1 (in the
handoff window, by contrast, a release can find Active = 0 and wrap, as
the counterexample shows).  A lease is granted only from the select
state while the offer is live; the offer is made live by a convergence
check exactly when Active < Target at that check and withdrawn exactly
when it is not, and while the offer is withdrawn no grant step is
enabled.  (Because Set may lower Target between a check and the grant, a
grant can occur with Active = Target, as the counterexample also shows;
the claim holds at the granularity of the convergence checks, not of the
individual grant.) -/
theorem c2_amended_grant_window :
    (∀ (evs : List (Event Nat)), ∀ g ∈ (runPool evs).groups,
      g.counts.Active < W64 ∧
      (g.counts.Active + pendInc g) % W64 =
        unreleasedCount (runPool evs) g.gid % W64)
    ∧ (∀ (evs : List (Event Nat)) (lid : Nat) (l : LeaseRec Nat)
        (g : GroupSt Nat),
      findLease (runPool evs) lid = some l → l.released = false →
      findGroup (runPool evs) l.gid = some g →
      g.pc ≠ LoopPC.postGrant →
      unreleasedCount (runPool evs) l.gid < W64 →
      1 ≤ g.counts.Active ∧ decr64 g.counts.Active = g.counts.Active - 1)
    ∧ (∀ (s : PoolSt Nat) (gid : Nat) (s' : PoolSt Nat),
        grantStep s gid = some s' →
        ∃ g, findGroup s gid = some g ∧ g.pc = LoopPC.atSelect ∧
          g.grantLive = true)
    ∧ (∀ (s : PoolSt Nat) (gid : Nat) (s' : PoolSt Nat) (g g' : GroupSt Nat),
        reevalStep s gid = some s' → findGroup s gid = some g →
        findGroup s' gid = some g' →
        (g'.grantLive = true ↔ g.counts.Active < g.counts.Target))
    ∧ (∀ (s : PoolSt Nat) (gid : Nat) (g : GroupSt Nat),
        findGroup s gid = some g → g.grantLive = false →
        grantStep s gid = none) := by
  refine ⟨?_, ?_, ?_, ?_, ?_⟩
  · intro evs g hg
    exact (wf_runPool evs).activeEq g hg
  · intro evs lid l g h hrel hg hpc hcnt
    have hW := wf_runPool evs
    have hl' : (runPool evs).leases.find? (fun r => r.lid == lid) = some l := h
    have hlmem : l ∈ (runPool evs).leases := List.mem_of_find?_eq_some hl'
    have hgmem := (findGroup_mem hg).1
    have hgid := (findGroup_mem hg).2
    have hae := hW.activeEq g hgmem
    have hp0 : pendInc g = 0 := by
      simp [pendInc, hpc]
    have hucnt : 0 < unreleasedCount (runPool evs) l.gid := by
      have hcp : 0 < (runPool evs).leases.countP
          (fun r => r.gid == l.gid && !r.released) :=
        List.countP_pos.mpr ⟨l, hlmem, by simp [hrel]⟩
      exact hcp
    have hco := hae.2
    rw [hp0, hgid] at hco
    have hlt := hae.1
    have hpos : 1 ≤ g.counts.Active := by
      rw [W64_eq] at hco hlt hcnt
      omega
    exact ⟨hpos, decr64_of_pos hpos⟩
  · intro s gid s' h
    unfold grantStep at h
    cases hgf : findGroup s gid with
    | none => simp [hgf] at h
    | some g =>
      simp only [hgf] at h
      by_cases hc : g.pc = LoopPC.atSelect ∧ g.grantLive = true
      · exact ⟨g, rfl, hc.1, hc.2⟩
      · rw [if_neg hc] at h
        exact absurd h (by simp)
  · intro s gid s' g g' h hg hg'
    unfold reevalStep at h
    simp only [hg] at h
    by_cases hpc : g.pc = LoopPC.needEval
    · rw [if_pos hpc] at h
      by_cases hat : g.counts.Active < g.counts.Target
      · rw [if_pos hat] at h
        cases hcand : g.candidate with
        | some c =>
          rw [hcand] at h
          injection h with h
          subst h
          rw [findGroup_updateGroup _ _ _
            (fun x => { x with grantLive := true, pc := LoopPC.atSelect })
            (fun x => rfl), if_pos rfl, hg, Option.map_some'] at hg'
          injection hg' with hg'
          subst hg'
          simp [hat]
        | none =>
          rw [hcand] at h
          injection h with h
          subst h
          have hg'2 : findGroup (updateGroup s gid
              (fun x => { x with grantLive := true,
                                 candidate := some (s.leaseIDs + 1),
                                 pc := LoopPC.atSelect })) gid = some g' := hg'
          rw [findGroup_updateGroup _ _ _
            (fun x => { x with grantLive := true,
                               candidate := some (s.leaseIDs + 1),
                               pc := LoopPC.atSelect })
            (fun x => rfl), if_pos rfl, hg, Option.map_some'] at hg'2
          injection hg'2 with hg'2
          subst hg'2
          simp [hat]
      · rw [if_neg hat] at h
        injection h with h
        subst h
        rw [findGroup_updateGroup _ _ _
          (fun x => { x with grantLive := false, pc := LoopPC.atSelect })
          (fun x => rfl), if_pos rfl, hg, Option.map_some'] at hg'
        injection hg' with hg'
        subst hg'
        simp [hat]
    · rw [if_neg hpc] at h
      exact absurd h (by simp)
  · intro s gid g hg hlive
    unfold grantStep
    simp only [hg]
    rw [if_neg (by simp [hlive])]

/-- Witness for the amended C2: after a grant whose increment has been
performed, the release of the concrete granted lease finds its group
with Active 1 and no pending increment, and the decrement is exact. -/
theorem c2_witness :
    1 ≤ ({ gid := 0, key := (0 : Nat), counts := { Target := 1, Active := 1 },
           cancelled := false, notified := true, pc := LoopPC.needEval,
           grantLive := true, candidate := none } : GroupSt Nat).counts.Active ∧
    decr64 ({ gid := 0, key := (0 : Nat),
              counts := { Target := 1, Active := 1 },
              cancelled := false, notified := true, pc := LoopPC.needEval,
              grantLive := true,
              candidate := none } : GroupSt Nat).counts.Active =
      ({ gid := 0, key := (0 : Nat), counts := { Target := 1, Active := 1 },
         cancelled := false, notified := true, pc := LoopPC.needEval,
         grantLive := true,
         candidate := none } : GroupSt Nat).counts.Active - 1 :=
  c2_amended_grant_window.2.1
    [Event.set 0 1, Event.reeval 0, Event.grantRecv 0, Event.incr 0]
    1 { lid := 1, key := 0, gid := 0, released := false }
    { gid := 0, key := 0, counts := { Target := 1, Active := 1 },
      cancelled := false, notified := true, pc := LoopPC.needEval,
      grantLive := true, candidate := none }
    (by decide) rfl (by decide) (by decide) (by decide)

/-- Counterexample to claim C5 as stated: (a) ids are consumed at
candidate allocation, not at grant: after Set(0,1), one convergence check
(which allocates id 1), Set(0,0) (cancelling the group with its candidate
never granted), Set(1,1), a check and a grant, the counter stands at 2
while the only granted lease has id 2, so one id was consumed with no
grant; (b) pool-wide, granted ids are not in strict grant order: with two
groups whose candidates are allocated as ids 1 and 2 and granted in the
opposite order, the grant-ordered id list is [2, 1]. -/
theorem c5_counterexample :
    ((runPool [Event.set (0 : Nat) 1, Event.reeval 0, Event.set 0 0,
        Event.set 1 1, Event.reeval 1, Event.grantRecv 1]).leaseIDs = 2
      ∧ (runPool [Event.set (0 : Nat) 1, Event.reeval 0, Event.set 0 0,
        Event.set 1 1, Event.reeval 1, Event.grantRecv 1]).leases.map
        (fun l => l.lid) = [2])
    ∧ (runPool [Event.set (0 : Nat) 1, Event.set 1 1, Event.reeval 0,
        Event.reeval 1, Event.grantRecv 1, Event.grantRecv 0]).leases.map
        (fun l => l.lid) = [2, 1] := by decide

/-- Claim C5 as amended: the candidate lease is allocated lazily, taking
the next id from the shared counter at allocation time, and the same
candidate is reused by later convergence checks without consuming
further ids until it is granted; a grant hands out exactly the candidate
id and clears the candidate; granted ids are unique pool-wide; within one
group granted ids strictly increase in grant order.  (Ids are consumed at
allocation, not at grant - a cancelled group can consume an id that is
never granted - and pool-wide grant order is not id-ordered, as the
counterexample shows.) -/
theorem c5_amended_candidate_ids :
    (∀ (s : PoolSt Nat) (gid c : Nat) (g : GroupSt Nat) (s' : PoolSt Nat),
        findGroup s gid = some g → g.candidate = some c →
        reevalStep s gid = some s' →
        s'.leaseIDs = s.leaseIDs ∧
        ∃ g', findGroup s' gid = some g' ∧ g'.candidate = some c)
    ∧ (∀ (s : PoolSt Nat) (gid : Nat) (g : GroupSt Nat),
        findGroup s gid = some g → g.candidate = none →
        g.pc = LoopPC.needEval → g.counts.Active < g.counts.Target →
        ∃ s' g', reevalStep s gid = some s' ∧
          s'.leaseIDs = s.leaseIDs + 1 ∧
          findGroup s' gid = some g' ∧
          g'.candidate = some (s.leaseIDs + 1))
    ∧ (∀ (s : PoolSt Nat) (gid : Nat) (s' : PoolSt Nat),
        grantStep s gid = some s' →
        ∃ g c g', findGroup s gid = some g ∧ g.candidate = some c ∧
          findGroup s' gid = some g' ∧ g'.candidate = none ∧
          s'.leases.map (fun l => l.lid) =
            s.leases.map (fun l => l.lid) ++ [c])
    ∧ (∀ evs : List (Event Nat),
        ((runPool evs).leases.map (fun l => l.lid)).Nodup)
    ∧ (∀ (evs : List (Event Nat)) (j : Nat),
        (((runPool evs).leases.filter (fun l => l.gid == j)).map
          (fun l => l.lid)).Pairwise (· < ·)) := by
  refine ⟨?_, ?_, ?_, ?_, ?_⟩
  · intro s gid c g s' hg hcand h
    unfold reevalStep at h
    simp only [hg] at h
    by_cases hpc : g.pc = LoopPC.needEval
    · rw [if_pos hpc] at h
      by_cases hat : g.counts.Active < g.counts.Target
      · rw [if_pos hat, hcand] at h
        injection h with h
        subst h
        refine ⟨rfl, ?_⟩
        rw [findGroup_updateGroup _ _ _
          (fun x => { x with grantLive := true, pc := LoopPC.atSelect })
          (fun x => rfl), if_pos rfl, hg, Option.map_some']
        exact ⟨_, rfl, hcand⟩
      · rw [if_neg hat] at h
        injection h with h
        subst h
        refine ⟨rfl, ?_⟩
        rw [findGroup_updateGroup _ _ _
          (fun x => { x with grantLive := false, pc := LoopPC.atSelect })
          (fun x => rfl), if_pos rfl, hg, Option.map_some']
        exact ⟨_, rfl, hcand⟩
    · rw [if_neg hpc] at h
      exact absurd h (by simp)
  · intro s gid g hg hcand hpc hat
    refine ⟨{ updateGroup s gid
        (fun x => { x with grantLive := true,
                           candidate := some (s.leaseIDs + 1),
                           pc := LoopPC.atSelect })
        with leaseIDs := s.leaseIDs + 1 },
      { g with grantLive := true, candidate := some (s.leaseIDs + 1),
               pc := LoopPC.atSelect }, ?_, rfl, ?_, rfl⟩
    · unfold reevalStep
      simp only [hg]
      rw [if_pos hpc, if_pos hat, hcand]
    · have hb : findGroup { updateGroup s gid
          (fun x => { x with grantLive := true,
                             candidate := some (s.leaseIDs + 1),
                             pc := LoopPC.atSelect })
          with leaseIDs := s.leaseIDs + 1 } gid =
          findGroup (updateGroup s gid
            (fun x => { x with grantLive := true,
                               candidate := some (s.leaseIDs + 1),
                               pc := LoopPC.atSelect })) gid := rfl
      rw [hb, findGroup_updateGroup _ _ _
        (fun x => { x with grantLive := true,
                           candidate := some (s.leaseIDs + 1),
                           pc := LoopPC.atSelect })
        (fun x => rfl), if_pos rfl, hg, Option.map_some']
  · intro s gid s' h
    unfold grantStep at h
    cases hgf : findGroup s gid with
    | none => simp [hgf] at h
    | some g =>
      simp only [hgf] at h
      by_cases hc : g.pc = LoopPC.atSelect ∧ g.grantLive = true
      · rw [if_pos hc] at h
        cases hcand : g.candidate with
        | none =>
          rw [hcand] at h
          exact absurd h (by simp)
        | some c =>
          rw [hcand] at h
          injection h with h
          subst h
          refine ⟨g, c,
            { g with candidate := none, pc := LoopPC.postGrant },
            rfl, hcand, ?_, by simp, ?_⟩
          · have hb : findGroup { updateGroup s gid (fun x =>
                { x with candidate := none, pc := LoopPC.postGrant })
                with leases := s.leases ++
                  [{ lid := c, key := g.key, gid := g.gid,
                     released := false }] } gid =
                findGroup (updateGroup s gid (fun x =>
                  { x with candidate := none, pc := LoopPC.postGrant })) gid :=
              rfl
            rw [hb, findGroup_updateGroup _ _ _
              (fun x => { x with candidate := none, pc := LoopPC.postGrant })
              (fun x => by simp), if_pos rfl, hgf, Option.map_some']
          · show ((s.leases ++
                ([{ lid := c, key := g.key, gid := g.gid, released := false }] :
                  List (LeaseRec Nat))).map (fun l => l.lid)) = _
            rw [List.map_append]
            rfl
      · rw [if_neg hc] at h
        exact absurd h (by simp)
  · intro evs
    exact (wf_runPool evs).lidsNodup
  · intro evs j
    exact (wf_runPool evs).perGroupSorted j

/-- Witness for the amended C5: on a concrete fresh group the first
convergence check allocates candidate id 1 and advances the counter to
1. -/
theorem c5_witness :
    ∃ s' g', reevalStep (runPool [Event.set (0 : Nat) 1]) 0 = some s' ∧
      s'.leaseIDs = (runPool [Event.set (0 : Nat) 1]).leaseIDs + 1 ∧
      findGroup s' 0 = some g' ∧
      g'.candidate = some ((runPool [Event.set (0 : Nat) 1]).leaseIDs + 1) :=
  c5_amended_candidate_ids.2.1 (runPool [Event.set 0 1]) 0
    { gid := 0, key := 0, counts := { Target := 1, Active := 0 },
      cancelled := false, notified := false, pc := LoopPC.needEval,
      grantLive := false, candidate := none } (by decide) rfl rfl (by decide)

lemma pc_exited_updateGroup {s : PoolSt K} {gid gid2 : Nat} {g g' : GroupSt K}
    (f : GroupSt K → GroupSt K) (hfgid : ∀ x, (f x).gid = x.gid)
    (hfpc : ∀ x, x.pc = LoopPC.exited → (f x).pc = LoopPC.exited)
    (hg : findGroup s gid = some g) (hpc : g.pc = LoopPC.exited)
    (hg' : findGroup (updateGroup s gid2 f) gid = some g') :
    g'.pc = LoopPC.exited := by
  rw [findGroup_updateGroup s gid2 gid f hfgid] at hg'
  by_cases hgg : gid = gid2
  · rw [if_pos hgg, ← hgg, hg, Option.map_some'] at hg'
    injection hg' with hg'
    subst hg'
    exact hfpc g hpc
  · rw [if_neg hgg, hg] at hg'
    injection hg' with hg'
    subst hg'
    exact hpc

lemma pc_exited_updateGroup_ne {s : PoolSt K} {gid gid2 : Nat}
    {g g' : GroupSt K} (f : GroupSt K → GroupSt K)
    (hfgid : ∀ x, (f x).gid = x.gid) (hne : gid ≠ gid2)
    (hg : findGroup s gid = some g) (hpc : g.pc = LoopPC.exited)
    (hg' : findGroup (updateGroup s gid2 f) gid = some g') :
    g'.pc = LoopPC.exited := by
  rw [findGroup_updateGroup s gid2 gid f hfgid, if_neg hne, hg] at hg'
  injection hg' with hg'
  subst hg'
  exact hpc

/-- Once the controller goroutine of a group has returned, no action of
the program brings it back: its program counter stays exited forever. -/
lemma pc_exited_preserved {s s' : PoolSt K} {e : Event K} {gid : Nat}
    {g g' : GroupSt K} (h : stepE s e = some s')
    (hg : findGroup s gid = some g) (hpc : g.pc = LoopPC.exited)
    (hg' : findGroup s' gid = some g') : g'.pc = LoopPC.exited := by
  cases e with
  | getE k =>
    injection h with h
    subst h
    rw [hg] at hg'
    injection hg' with hg'
    subst hg'
    exact hpc
  | stop =>
    injection h with h
    subst h
    rw [findGroup_Stop, hg, Option.map_some'] at hg'
    injection hg' with hg'
    subst hg'
    exact hpc
  | set k t =>
    injection h with h
    subst h
    unfold PoolSt.Set at hg'
    by_cases ht : t < 1
    · rw [if_pos ht] at hg'
      unfold PoolSt.del at hg'
      cases hl : lookupKey s.registry k with
      | none =>
        simp only [hl] at hg'
        rw [hg] at hg'
        injection hg' with hg'
        subst hg'
        exact hpc
      | some gid2 =>
        simp only [hl] at hg'
        have hg'2 : findGroup (updateGroup s gid2
            (fun x => { x with cancelled := true })) gid = some g' := hg'
        exact pc_exited_updateGroup (fun x => { x with cancelled := true })
          (fun x => rfl) (fun x hx => hx) hg hpc hg'2
    · rw [if_neg ht] at hg'
      cases hl : lookupKey s.registry k with
      | none =>
        simp only [hl] at hg'
        rw [findGroup_start_of_found k t hg] at hg'
        injection hg' with hg'
        subst hg'
        exact hpc
      | some gid2 =>
        simp only [hl] at hg'
        exact pc_exited_updateGroup (fun x => x.SetTarget t) (fun x => by simp)
          (fun x hx => by simpa using hx) hg hpc hg'
  | reeval gid2 =>
    replace h : reevalStep s gid2 = some s' := h
    unfold reevalStep at h
    cases hgf : findGroup s gid2 with
    | none => simp [hgf] at h
    | some h0 =>
      simp only [hgf] at h
      by_cases hpc2 : h0.pc = LoopPC.needEval
      · have hne : gid ≠ gid2 := by
          intro hc
          subst hc
          rw [hg] at hgf
          injection hgf with hgf
          subst hgf
          rw [hpc] at hpc2
          exact LoopPC.noConfusion hpc2
        rw [if_pos hpc2] at h
        by_cases hat : h0.counts.Active < h0.counts.Target
        · rw [if_pos hat] at h
          cases hcand : h0.candidate with
          | some c =>
            rw [hcand] at h
            injection h with h
            subst h
            exact pc_exited_updateGroup_ne
              (fun x => { x with grantLive := true, pc := LoopPC.atSelect })
              (fun x => rfl) hne hg hpc hg'
          | none =>
            rw [hcand] at h
            injection h with h
            subst h
            have hg'2 : findGroup (updateGroup s gid2
                (fun x => { x with grantLive := true,
                                   candidate := some (s.leaseIDs + 1),
                                   pc := LoopPC.atSelect })) gid = some g' := hg'
            exact pc_exited_updateGroup_ne
              (fun x => { x with grantLive := true,
                                 candidate := some (s.leaseIDs + 1),
                                 pc := LoopPC.atSelect })
              (fun x => rfl) hne hg hpc hg'2
        · rw [if_neg hat] at h
          injection h with h
          subst h
          exact pc_exited_updateGroup_ne
            (fun x => { x with grantLive := false, pc := LoopPC.atSelect })
            (fun x => rfl) hne hg hpc hg'
      · rw [if_neg hpc2] at h
        exact absurd h (by simp)
  | grantRecv gid2 =>
    replace h : grantStep s gid2 = some s' := h
    unfold grantStep at h
    cases hgf : findGroup s gid2 with
    | none => simp [hgf] at h
    | some h0 =>
      simp only [hgf] at h
      by_cases hc : h0.pc = LoopPC.atSelect ∧ h0.grantLive = true
      · have hne : gid ≠ gid2 := by
          intro hceq
          subst hceq
          rw [hg] at hgf
          injection hgf with hgf
          subst hgf
          rw [hpc] at hc
          exact LoopPC.noConfusion hc.1
        rw [if_pos hc] at h
        cases hcand : h0.candidate with
        | none =>
          rw [hcand] at h
          exact absurd h (by simp)
        | some c =>
          rw [hcand] at h
          injection h with h
          subst h
          have hg'2 : findGroup (updateGroup s gid2 (fun x =>
              { x with candidate := none, pc := LoopPC.postGrant })) gid =
              some g' := hg'
          exact pc_exited_updateGroup_ne
            (fun x => { x with candidate := none, pc := LoopPC.postGrant })
            (fun x => by simp) hne hg hpc hg'2
      · rw [if_neg hc] at h
        exact absurd h (by simp)
  | incr gid2 =>
    replace h : incrStep s gid2 = some s' := h
    unfold incrStep at h
    cases hgf : findGroup s gid2 with
    | none => simp [hgf] at h
    | some h0 =>
      simp only [hgf] at h
      by_cases hc : h0.pc = LoopPC.postGrant
      · have hne : gid ≠ gid2 := by
          intro hceq
          subst hceq
          rw [hg] at hgf
          injection hgf with hgf
          subst hgf
          rw [hpc] at hc
          exact LoopPC.noConfusion hc
        rw [if_pos hc] at h
        injection h with h
        subst h
        exact pc_exited_updateGroup_ne
          (fun x => GroupSt.incrActive { x with pc := LoopPC.needEval })
          (fun x => by simp) hne hg hpc hg'
      · rw [if_neg hc] at h
        exact absurd h (by simp)
  | notifyRecv gid2 =>
    replace h : notifyStep s gid2 = some s' := h
    unfold notifyStep at h
    cases hgf : findGroup s gid2 with
    | none => simp [hgf] at h
    | some h0 =>
      simp only [hgf] at h
      by_cases hc : h0.pc = LoopPC.atSelect ∧ h0.notified = true
      · have hne : gid ≠ gid2 := by
          intro hceq
          subst hceq
          rw [hg] at hgf
          injection hgf with hgf
          subst hgf
          rw [hpc] at hc
          exact LoopPC.noConfusion hc.1
        rw [if_pos hc] at h
        injection h with h
        subst h
        exact pc_exited_updateGroup_ne
          (fun x => { x with notified := false, pc := LoopPC.needEval })
          (fun x => rfl) hne hg hpc hg'
      · rw [if_neg hc] at h
        exact absurd h (by simp)
  | ctxDone gid2 =>
    replace h : doneStep s gid2 = some s' := h
    unfold doneStep at h
    cases hgf : findGroup s gid2 with
    | none => simp [hgf] at h
    | some h0 =>
      simp only [hgf] at h
      by_cases hc : h0.pc = LoopPC.atSelect ∧ h0.cancelled = true
      · rw [if_pos hc] at h
        injection h with h
        subst h
        exact pc_exited_updateGroup (fun x => { x with pc := LoopPC.exited })
          (fun x => rfl) (fun x hx => rfl) hg hpc hg'
      · rw [if_neg hc] at h
        exact absurd h (by simp)
  | release lid =>
    replace h : releaseStep s lid = some s' := h
    unfold releaseStep at h
    cases hlf : findLease s lid with
    | none => simp [hlf] at h
    | some l =>
      simp only [hlf] at h
      by_cases hr : l.released = true
      · rw [if_pos hr] at h
        injection h with h
        subst h
        rw [hg] at hg'
        injection hg' with hg'
        subst hg'
        exact hpc
      · rw [if_neg hr] at h
        injection h with h
        subst h
        have hg'2 : findGroup (updateGroup s l.gid GroupSt.decrActive) gid =
            some g' := hg'
        exact pc_exited_updateGroup GroupSt.decrActive (fun x => by simp)
          (fun x hx => by simpa using hx) hg hpc hg'2

/-- Counterexample to claim C4 as stated: after Set(0, 1), one
convergence check (making the offer live) and Stop(), the pool is
stopped, no lease has been granted yet, and the grant branch of the
select of the group is still enabled, so a receive from the Acquire
channel can still yield a new lease.  This is the race between the live
offer and the closed ctx.Done() channel in the select of group.run: the
Go select chooses among ready cases uniformly at random, so cancellation
is not prioritised over a pending offer. -/
theorem c4_counterexample :
    (runPool [Event.set (0 : Nat) 1, Event.reeval 0, Event.stop]).stopped = true
    ∧ (runPool [Event.set (0 : Nat) 1, Event.reeval 0,
        Event.stop]).leases.length = 0
    ∧ (stepE (runPool [Event.set (0 : Nat) 1, Event.reeval 0, Event.stop])
        (Event.grantRecv 0)).map (fun s => s.leases.length) = some 1 := by
  decide

/-- Claim C4 as amended: Stop() marks the pool stopped and cancels every
group; every group blocked at its select can then take the cancellation
branch and exit; once the loop of a group has exited, no grant,
convergence, notify or cancellation step of that group is ever enabled
again, and the exited state is preserved by every later action of the
program; leases granted before Stop remain valid and may still be
released.  (A group whose offer was already live when Stop was called can
still grant one lease before its loop observes the cancellation, as the
counterexample shows, so the unqualified claim that no receive ever
yields a lease after Stop does not hold.) -/
theorem c4_stop_amended :
    (∀ s : PoolSt Nat, s.Stop.stopped = true ∧
      ∀ g ∈ s.Stop.groups, g.cancelled = true)
    ∧ (∀ (s : PoolSt Nat) (gid : Nat) (g : GroupSt Nat),
        findGroup s gid = some g → g.cancelled = true →
        g.pc = LoopPC.atSelect → (doneStep s gid).isSome = true)
    ∧ (∀ (s : PoolSt Nat) (gid : Nat) (g : GroupSt Nat),
        findGroup s gid = some g → g.pc = LoopPC.exited →
        grantStep s gid = none ∧ reevalStep s gid = none ∧
        notifyStep s gid = none ∧ doneStep s gid = none)
    ∧ (∀ (s : PoolSt Nat) (e : Event Nat) (s' : PoolSt Nat) (gid : Nat)
        (g g' : GroupSt Nat), stepE s e = some s' →
        findGroup s gid = some g → g.pc = LoopPC.exited →
        findGroup s' gid = some g' → g'.pc = LoopPC.exited)
    ∧ (∀ (s : PoolSt Nat) (lid : Nat) (l : LeaseRec Nat),
        findLease s.Stop lid = some l →
        (releaseStep s.Stop lid).isSome = true) := by
  refine ⟨?_, ?_, ?_, ?_, ?_⟩
  · intro s
    refine ⟨rfl, ?_⟩
    intro g hg
    obtain ⟨y, hy, hgy⟩ := List.mem_map.mp hg
    rw [← hgy]
  · intro s gid g hg hcanc hpc
    unfold doneStep
    simp only [hg]
    rw [if_pos ⟨hpc, hcanc⟩]
    rfl
  · intro s gid g hg hpc
    refine ⟨?_, ?_, ?_, ?_⟩
    · unfold grantStep
      simp only [hg]
      rw [if_neg (by simp [hpc])]
    · unfold reevalStep
      simp only [hg]
      rw [if_neg (by simp [hpc])]
    · unfold notifyStep
      simp only [hg]
      rw [if_neg (by simp [hpc])]
    · unfold doneStep
      simp only [hg]
      rw [if_neg (by simp [hpc])]
  · intro s e s' gid g g' h hg hpc hg'
    exact pc_exited_preserved h hg hpc hg'
  · intro s lid l h
    unfold releaseStep
    simp only [h]
    by_cases hr : l.released = true
    · rw [if_pos hr]
      rfl
    · rw [if_neg hr]
      rfl

/-- Witness for the amended C4 on a concrete pool: after the group of
key 0 has been cancelled and its loop has exited, none of its loop steps
is enabled. -/
theorem c4_witness :
    grantStep (runPool [Event.set (0 : Nat) 1, Event.reeval 0, Event.set 0 0,
      Event.ctxDone 0]) 0 = none ∧
    reevalStep (runPool [Event.set (0 : Nat) 1, Event.reeval 0, Event.set 0 0,
      Event.ctxDone 0]) 0 = none ∧
    notifyStep (runPool [Event.set (0 : Nat) 1, Event.reeval 0, Event.set 0 0,
      Event.ctxDone 0]) 0 = none ∧
    doneStep (runPool [Event.set (0 : Nat) 1, Event.reeval 0, Event.set 0 0,
      Event.ctxDone 0]) 0 = none :=
  c4_stop_amended.2.2.1 _ 0
    { gid := 0, key := 0, counts := { Target := 1, Active := 0 },
      cancelled := true, notified := false, pc := LoopPC.exited,
      grantLive := true, candidate := some 1 } (by decide) rfl

/-- Claim C6: for every key k and target t at least 1, after Set(k, t),
one grant (the handoff followed by the increment the group runs for it)
and Set(k, 0), Get(k) returns the zero Counts; releasing the
already granted lease afterwards is a defined action that decrements the
Active count of the removed group object to 0 and does not resurrect the
group: the key stays absent from the registry and Get(k) still returns
the zero Counts. -/
theorem c6_cancel_then_release :
    ∀ (k t : Nat), 1 ≤ t →
      (runPool [Event.set k t, Event.reeval 0, Event.grantRecv 0,
        Event.incr 0, Event.set k 0]).Get k = { Target := 0, Active := 0 } ∧
      ∃ s', releaseStep (runPool [Event.set k t, Event.reeval 0,
          Event.grantRecv 0, Event.incr 0, Event.set k 0]) 1 = some s' ∧
        lookupKey s'.registry k = none ∧
        (findGroup s' 0).map (fun g => g.counts.Active) = some 0 ∧
        s'.Get k = { Target := 0, Active := 0 } := by
  intro k t ht
  have hpos : 0 < t := ht
  have ht' : ¬ t < 1 := by omega
  have h1 : runPool [Event.set k t, Event.reeval 0, Event.grantRecv 0,
      Event.incr 0, Event.set k 0] =
      { leaseIDs := 1, nextGid := 1,
        groups := [{ gid := 0, key := k, counts := { Target := t, Active := 1 },
                     cancelled := true, notified := true,
                     pc := LoopPC.needEval, grantLive := true,
                     candidate := none }],
        registry := [],
        leases := [{ lid := 1, key := k, gid := 0, released := false }],
        stopped := false } := by
    simp [runPool, runFrom, stepD, stepE, initPool, PoolSt.Set, PoolSt.del,
      PoolSt.start, reevalStep, grantStep, incrStep, incr64, W64_eq, findGroup,
      updateGroup, lookupKey, removeKey, GroupSt.incrActive, GroupSt.notify,
      List.find?, ht', hpos]
  refine ⟨by rw [h1]; rfl,
    { leaseIDs := 1, nextGid := 1,
      groups := [{ gid := 0, key := k, counts := { Target := t, Active := 0 },
                   cancelled := true, notified := true,
                   pc := LoopPC.needEval, grantLive := true,
                   candidate := none }],
      registry := [],
      leases := [{ lid := 1, key := k, gid := 0, released := true }],
      stopped := false }, ?_, rfl, rfl, rfl⟩
  rw [h1]
  simp [releaseStep, findLease, markReleased, updateGroup, GroupSt.decrActive,
    GroupSt.notify, decr64, List.find?]

/-- Witness for C6 at the concrete key 0 and target 1. -/
theorem c6_witness :
    1 ≤ 1 ∧
    ((runPool [Event.set (0 : Nat) 1, Event.reeval 0, Event.grantRecv 0,
        Event.incr 0, Event.set 0 0]).Get 0 = { Target := 0, Active := 0 } ∧
      ∃ s', releaseStep (runPool [Event.set (0 : Nat) 1, Event.reeval 0,
          Event.grantRecv 0, Event.incr 0, Event.set 0 0]) 1 = some s' ∧
        lookupKey s'.registry 0 = none ∧
        (findGroup s' 0).map (fun g => g.counts.Active) = some 0 ∧
        s'.Get 0 = { Target := 0, Active := 0 }) :=
  ⟨by decide, c6_cancel_then_release 0 1 (by decide)⟩

end Workpool
